import Mathlib

/-!
Verification development for the AppleDocsDictionary cache-first retrieval
engine.  The definitions below are a shallow embedding of the TypeScript
sources:

* `ApiCacheManager` (version 1.1.0, the current no-expiry variant found in
  `src/appleDocsSearcher.ts`): the durable cache store over one JSON file
  per entry plus a metadata aggregate.  The file system is modelled as an
  association list from sanitized key strings to entries; `readdirSync`
  order is the list order, `writeFileSync` overwrites in place or appends.
* `DeepDocsScraper` (`src/deepDocsScraper.ts`): the retrieval orchestrator.
  Network access (`axios.get` + cheerio field extraction, the `PageParser`
  collaborator) is modelled by an environment mapping a URL to the parsed
  page fields, `none` denoting a fetch failure or an empty search result.
  A state record threads the in-memory URL cache, the durable store, the
  metadata, a network-fetch counter and a durable-cache-read counter.
* `EnhancedContextProvider.enhancePromptWithIntelligentRAG` (the multi-seed
  coordinator): the per-seed loop over at most 8 expanded identifiers.

Timestamps (`Date.now()`) are supplied explicitly as `Nat` arguments.
JavaScript numbers used as counters are embedded as `Nat` except
`CacheMetadata.totalApis`, which the code can drive negative and is
therefore `Int`.
-/

namespace AppleDocs

/-- Deprecation information stored on a cached entry
(`CachedApiData.deprecationInfo` in `apiCacheManager.ts`). -/
structure DeprecationInfo where
  isDeprecated : Bool
  reason : Option String
  alternative : Option String
  deprecatedSince : Option String
  deriving Repr, DecidableEq

/-- One durable cache entry (`CachedApiData`). -/
structure CachedApiData where
  apiName : String
  framework : String
  documentation : String
  properties : List String
  methods : List String
  examples : List String
  relatedApis : List String
  deprecationInfo : Option DeprecationInfo
  cachedAt : Nat
  lastAccessed : Nat
  accessCount : Nat
  deriving Repr, DecidableEq

/-- The singleton metadata aggregate (`CacheMetadata`). -/
structure CacheMetadata where
  totalApis : Int
  lastCleanup : Nat
  cacheVersion : String
  frameworks : List String
  deriving Repr, DecidableEq

/-- Input to `cacheApi`: a `CachedApiData` without the three bookkeeping
fields (`Omit<CachedApiData, 'cachedAt' | 'lastAccessed' | 'accessCount'>`). -/
structure ApiDataInput where
  apiName : String
  framework : String
  documentation : String
  properties : List String
  methods : List String
  examples : List String
  relatedApis : List String
  deprecationInfo : Option DeprecationInfo
  deriving Repr, DecidableEq

/-- JavaScript `toLowerCase()` restricted to the ASCII range the sources
use, as a structurally recursive map over the character list (the core
`String.toLower` is extensionally the same but does not reduce in the
kernel). -/
def toLowerStr (s : String) : String :=
  String.mk (s.data.map Char.toLower)

/-- JavaScript `s.startsWith(p)`. -/
def jsStartsWith (s p : String) : Bool :=
  List.isPrefixOf p.data s.data

/-- Fuel-driven worker for `jsSplit`; the fuel is the input length, so the
fuel never runs out on the initial call. -/
def jsSplitGo (sep : List Char) : Nat → List Char → List Char → List String
  | _, [], acc => [String.mk acc.reverse]
  | 0, l, acc => [String.mk (acc.reverse ++ l)]
  | fuel + 1, c :: rest, acc =>
      if sep ≠ [] ∧ List.isPrefixOf sep (c :: rest) then
        String.mk acc.reverse :: jsSplitGo sep fuel (List.drop (sep.length - 1) rest) []
      else jsSplitGo sep fuel rest (c :: acc)

/-- JavaScript `s.split(sep)` for a nonempty separator: splits at the
non-overlapping occurrences of `sep`, left to right. -/
def jsSplit (s sep : String) : List String :=
  jsSplitGo sep.data s.data.length s.data []

/-- Character-level sanitization of `sanitizeFileName`: a character outside
`[a-zA-Z0-9.-]` is replaced by an underscore. -/
def sanitizeChar (c : Char) : Char :=
  if ('a' ≤ c ∧ c ≤ 'z') ∨ ('A' ≤ c ∧ c ≤ 'Z') ∨ ('0' ≤ c ∧ c ≤ '9') ∨ c = '.' ∨ c = '-' then c
  else '_'

/-- `sanitizeFileName(name)`: `name.replace(/[^a-zA-Z0-9.-]/g, '_').toLowerCase()`. -/
def sanitizeFileName (name : String) : String :=
  toLowerStr (String.mk (name.data.map sanitizeChar))

/-- The storage key of an entry, from `getCacheFilePath`:
`sanitizeFileName(framework + "-" + apiName)` (the `.json` suffix and the
directory are identical for all entries and are dropped). -/
def cacheKey (apiName framework : String) : String :=
  sanitizeFileName (framework ++ "-" ++ apiName)

/-- The durable store: one entry file per sanitized key, in directory order. -/
abbrev Store := List (String × CachedApiData)

/-- Reading the entry file for a key (`fs.existsSync` + `readFileSync`). -/
def storeFind : Store → String → Option CachedApiData
  | [], _ => none
  | (k', v) :: rest, k => if k' = k then some v else storeFind rest k

/-- Writing the entry file for a key (`fs.writeFileSync`): overwrites the
existing file in place, or creates a new one. -/
def storeWrite : Store → String → CachedApiData → Store
  | [], k, v => [(k, v)]
  | (k', v') :: rest, k, v =>
      if k' = k then (k, v) :: rest else (k', v') :: storeWrite rest k v

/-- `ApiCacheManager.cacheApi` (v1.1.0): stamps the entry with
`cachedAt = lastAccessed = now`, `accessCount = 1`, writes it under its key,
then increments `metadata.totalApis` (unconditionally) and records the
framework name if it is new. -/
def cacheApi (store : Store) (meta : CacheMetadata) (d : ApiDataInput) (now : Nat) :
    Store × CacheMetadata :=
  let cached : CachedApiData :=
    { apiName := d.apiName, framework := d.framework, documentation := d.documentation
      properties := d.properties, methods := d.methods, examples := d.examples
      relatedApis := d.relatedApis, deprecationInfo := d.deprecationInfo
      cachedAt := now, lastAccessed := now, accessCount := 1 }
  let store' := storeWrite store (cacheKey d.apiName d.framework) cached
  let meta' : CacheMetadata :=
    { meta with
      totalApis := meta.totalApis + 1
      frameworks :=
        if d.framework ∈ meta.frameworks then meta.frameworks
        else meta.frameworks ++ [d.framework] }
  (store', meta')

/-- `ApiCacheManager.getCachedApi` (v1.1.0): on a miss returns `null`; on a
hit updates the access statistics (`lastAccessed = now`,
`accessCount += 1`) with no expiration check, writes the mutated entry
back, and returns it. -/
def getCachedApi (store : Store) (apiName framework : String) (now : Nat) :
    Option CachedApiData × Store :=
  match storeFind store (cacheKey apiName framework) with
  | none => (none, store)
  | some d =>
      let d' := { d with lastAccessed := now, accessCount := d.accessCount + 1 }
      (some d', storeWrite store (cacheKey apiName framework) d')

/-- Result record of `getCacheStats` (v1.1.0).  `diskUsage` is a byte total
taken from `fs.statSync` and lives outside the data model; the remaining
fields are computed from the entry set.  `oldestCache`/`newestCache` are the
raw timestamps before date formatting (`N/A`, i.e. `none`, when the store is
empty). -/
structure CacheStatsResult where
  totalApis : Nat
  frameworks : List String
  oldestCache : Option Nat
  newestCache : Option Nat
  mostAccessedApi : Option String
  cacheSize : Nat
  maxCacheSize : Nat
  deriving Repr, DecidableEq

/-- Loop body accumulator of `getCacheStats`: `(apiCount, oldestTime,
newestTime, mostAccessed {api, count})`. -/
structure StatsAcc where
  apiCount : Nat
  oldestTime : Nat
  newestTime : Nat
  mostAccessedName : String
  mostAccessedCount : Nat

/-- One iteration of the `getCacheStats` scan over the entry files. -/
def statsStep (acc : StatsAcc) (e : CachedApiData) : StatsAcc :=
  { apiCount := acc.apiCount + 1
    oldestTime := if e.cachedAt < acc.oldestTime then e.cachedAt else acc.oldestTime
    newestTime := if e.cachedAt > acc.newestTime then e.cachedAt else acc.newestTime
    mostAccessedName :=
      if e.accessCount > acc.mostAccessedCount then e.framework ++ "." ++ e.apiName
      else acc.mostAccessedName
    mostAccessedCount :=
      if e.accessCount > acc.mostAccessedCount then e.accessCount
      else acc.mostAccessedCount }

/-- `ApiCacheManager.getCacheStats` (v1.1.0): re-derives the totals by
scanning the entry files; `totalApis` and `cacheSize` are the scanned
`apiCount`, not the stored `metadata.totalApis`. -/
def getCacheStats (store : Store) (meta : CacheMetadata) (now : Nat) (maxCacheSize : Nat) :
    CacheStatsResult :=
  let acc := store.foldl (fun a p => statsStep a p.2)
    { apiCount := 0, oldestTime := now, newestTime := 0
      mostAccessedName := "", mostAccessedCount := 0 }
  { totalApis := acc.apiCount
    frameworks := meta.frameworks
    oldestCache := if acc.apiCount > 0 then some acc.oldestTime else none
    newestCache := if acc.apiCount > 0 then some acc.newestTime else none
    mostAccessedApi := if acc.mostAccessedName = "" then none else some acc.mostAccessedName
    cacheSize := acc.apiCount
    maxCacheSize := maxCacheSize }

/-- Eviction order of `cleanupCache`: the JavaScript comparator sorts by
`accessCount` ascending, ties by `lastAccessed` ascending. -/
def evictionLE (a b : CachedApiData) : Bool :=
  decide (a.accessCount < b.accessCount ∨
    (a.accessCount = b.accessCount ∧ a.lastAccessed ≤ b.lastAccessed))

/-- `ApiCacheManager.cleanupCache` (v1.1.0): when the number of entry files
exceeds `MAX_CACHE_SIZE`, sorts them with the eviction comparator (a stable
sort, as `Array.prototype.sort` is) and unlinks the first
`count - MAX_CACHE_SIZE` of them; then subtracts the removed count from
`metadata.totalApis` and stamps `lastCleanup`.  Returns the removed count
and the surviving entries. -/
def cleanupCache (maxCacheSize : Nat) (apiFiles : List CachedApiData)
    (meta : CacheMetadata) (now : Nat) : Nat × List CachedApiData × CacheMetadata :=
  if apiFiles.length > maxCacheSize then
    let sorted := apiFiles.mergeSort evictionLE
    let toRemove := apiFiles.length - maxCacheSize
    let removedCount := (sorted.take toRemove).length
    (removedCount, sorted.drop toRemove,
      { meta with totalApis := meta.totalApis - removedCount, lastCleanup := now })
  else
    (0, apiFiles, { meta with totalApis := meta.totalApis - 0, lastCleanup := now })

/-- `PropertyInfo` in `deepDocsScraper.ts`. -/
structure PropertyInfo where
  name : String
  typ : String
  description : String
  isDeprecated : Bool
  deriving Repr, DecidableEq

/-- `ParameterInfo` in `deepDocsScraper.ts`. -/
structure ParameterInfo where
  name : String
  typ : String
  description : String
  deriving Repr, DecidableEq

/-- `MethodInfo` in `deepDocsScraper.ts`. -/
structure MethodInfo where
  name : String
  signature : String
  description : String
  parameters : List ParameterInfo
  returnType : String
  isDeprecated : Bool
  deriving Repr, DecidableEq

/-- `DeepDocResult` in `deepDocsScraper.ts`.  The optional `fromCache` flag
(`true` only on records converted from the durable cache) is embedded as a
`Bool` defaulting to `false`, matching `undefined` being falsy. -/
structure DeepDocResult where
  title : String
  framework : String
  typ : String
  description : String
  url : String
  availability : String
  isDeprecated : Bool
  deprecationInfo : Option String
  codeExamples : List String
  relatedApis : List String
  properties : List PropertyInfo
  methods : List MethodInfo
  fromCache : Bool := false
  deriving Repr, DecidableEq

/-- The fields the `PageParser` collaborator (cheerio selector logic in
`scrapeApiPage`/`scrapeRelatedApis`) extracts from a fetched page, before
the defaults and the slicing applied by `scrapeApiPage`.  `relatedLinks`
holds the already-absolutized related URLs (hrefs containing
`/documentation/`); `properties`, `methods` and `codeExamples` hold the
elements surviving the per-element filters. -/
structure Page where
  title : String
  framework : String
  typ : String
  description : String
  availability : String
  isDeprecated : Bool
  deprecationText : String
  codeExamples : List String
  properties : List PropertyInfo
  methods : List MethodInfo
  relatedLinks : List String
  deriving Repr, DecidableEq

/-- The network collaborator: `searchHref q fw?` is the href of the first
`.search-result` anchor of the documentation search for `q` (optionally
filtered by the lower-cased framework), `none` when the fetch fails or no
result exists; `page url` is the parsed content of a direct page fetch,
`none` on a fetch failure. -/
structure FetchEnv where
  searchHref : String → Option String → Option String
  page : String → Option Page

/-- `this.baseUrl` of `DeepDocsScraper`. -/
def baseUrl : String := "https://developer.apple.com"

/-- State threaded through a `DeepDocsScraper` run: the in-memory URL cache
(`this.cache`), the durable store and its metadata (`this.cacheManager`),
a counter of network fetches issued (`axios.get` calls), a counter of
durable-cache reads (`getCachedApi` calls), and the current clock value. -/
structure ScrapeState where
  mem : List (String × DeepDocResult)
  store : Store
  meta : CacheMetadata
  fetches : Nat
  cacheReads : Nat
  now : Nat
  deriving Repr, DecidableEq

/-- Lookup in the in-memory URL cache (`this.cache.has/get`). -/
def memFind : List (String × DeepDocResult) → String → Option DeepDocResult
  | [], _ => none
  | (k', v) :: rest, k => if k' = k then some v else memFind rest k

/-- Insertion into the in-memory URL cache (`this.cache.set`). -/
def memWrite : List (String × DeepDocResult) → String → DeepDocResult →
    List (String × DeepDocResult)
  | [], k, v => [(k, v)]
  | (k', v') :: rest, k, v =>
      if k' = k then (k, v) :: rest else (k', v') :: memWrite rest k v

/-- `DeepDocsScraper.capitalizeFramework`: static table from lower-cased
framework tokens to canonical display names, identity otherwise. -/
def capitalizeFramework (framework : String) : String :=
  match toLowerStr framework with
  | "foundation" => "Foundation"
  | "uikit" => "UIKit"
  | "swiftui" => "SwiftUI"
  | "combine" => "Combine"
  | "coredata" => "CoreData"
  | "avfoundation" => "AVFoundation"
  | "mapkit" => "MapKit"
  | "pencilkit" => "PencilKit"
  | "arkit" => "ARKit"
  | "coreml" => "CoreML"
  | _ => framework

/-- Capture group of `url.match(/\/documentation\/([^\/]+)/)`: the leading
non-slash segment of a piece, when nonempty. -/
def leadingSegment (s : String) : Option String :=
  let seg := s.data.takeWhile (fun c => c ≠ '/')
  if seg = [] then none else some (String.mk seg)

/-- `DeepDocsScraper.extractFrameworkFromUrl`: the first nonempty segment
following an occurrence of `/documentation/`, else `Unknown`. -/
def extractFrameworkFromUrl (url : String) : String :=
  match ((jsSplit url "/documentation/").drop 1).filterMap leadingSegment with
  | m :: _ => m
  | [] => "Unknown"

/-- First-occurrence deduplication, the order `new Set(array)` preserves. -/
def jsSetDedupAux (seen : List String) : List String → List String
  | [] => []
  | x :: xs => if x ∈ seen then jsSetDedupAux seen xs else x :: jsSetDedupAux (x :: seen) xs

/-- `[...new Set(list)]`. -/
def jsSetDedup (l : List String) : List String :=
  jsSetDedupAux [] l

/-- `DeepDocsScraper.parsePropertiesFromCache` on one `name: type` string. -/
def parsePropertyFromCache (prop : String) : PropertyInfo :=
  match jsSplit prop ": " with
  | n :: t :: _ =>
      { name := if n = "" then prop else n
        typ := if t = "" then "Unknown" else t
        description := "", isDeprecated := false }
  | n :: _ =>
      { name := if n = "" then prop else n
        typ := "Unknown", description := "", isDeprecated := false }
  | [] =>
      { name := prop, typ := "Unknown", description := "", isDeprecated := false }

/-- `DeepDocsScraper.parseMethodsFromCache` on one
`name(params): returnType` string. -/
def parseMethodFromCache (method : String) : MethodInfo :=
  let sigParts := jsSplit method "): "
  let signature := sigParts.headD ""
  let returnType := (sigParts.drop 1).headD ""
  let nameParts := jsSplit signature "("
  let name := nameParts.headD ""
  let params := (nameParts.drop 1).headD ""
  { name := if name = "" then method else name
    signature := if signature = "" then method else signature
    description := ""
    parameters :=
      if params = "" then []
      else (jsSplit params ", ").map (fun p => { name := p, typ := "Unknown", description := "" })
    returnType := if returnType = "" then "Void" else returnType
    isDeprecated := false }

/-- `DeepDocsScraper.convertCachedToDeepDoc`. -/
def convertCachedToDeepDoc (cached : CachedApiData) : DeepDocResult :=
  { title := cached.apiName
    framework := cached.framework
    typ := "class"
    description := cached.documentation
    url := "#cached"
    availability := "Available"
    isDeprecated := (cached.deprecationInfo.map (·.isDeprecated)).getD false
    deprecationInfo := cached.deprecationInfo.bind (·.reason)
    codeExamples := cached.examples
    relatedApis := cached.relatedApis
    properties := cached.properties.map parsePropertyFromCache
    methods := cached.methods.map parseMethodFromCache
    fromCache := true }

/-- `DeepDocsScraper.getCachedResult`: one durable-cache read
(`cacheManager.getCachedApi`), converting a hit to a `DeepDocResult`. -/
def getCachedResult (σ : ScrapeState) (apiName framework : String) :
    Option DeepDocResult × ScrapeState :=
  let σ₁ := { σ with cacheReads := σ.cacheReads + 1 }
  match getCachedApi σ₁.store apiName framework σ₁.now with
  | (none, st') => (none, { σ₁ with store := st' })
  | (some d, st') => (some (convertCachedToDeepDoc d), { σ₁ with store := st' })

/-- Loop of `DeepDocsScraper.searchRelatedInCache` over the (already
truncated) related identifiers: cache lookups only, hits collected. -/
def searchRelatedGo (fw : String) : ScrapeState → List String → List DeepDocResult × ScrapeState
  | σ, [] => ([], σ)
  | σ, a :: rest =>
      match getCachedResult σ a fw with
      | (some c, σ₁) =>
          let (others, σ₂) := searchRelatedGo fw σ₁ rest
          (c :: others, σ₂)
      | (none, σ₁) => searchRelatedGo fw σ₁ rest

/-- `DeepDocsScraper.searchRelatedInCache`: looks up the first 5 related
identifiers in the durable cache. -/
def searchRelatedInCache (σ : ScrapeState) (relatedApis : List String) (fw : String) :
    List DeepDocResult × ScrapeState :=
  searchRelatedGo fw σ (relatedApis.take 5)

/-- Record construction at the end of `DeepDocsScraper.scrapeApiPage`:
defaults for empty fields, framework fallback from the URL and
capitalization, the slices `codeExamples[0..3)`, `properties[0..10)`,
`methods[0..10)`, and deduplication-then-`slice(0, 10)` of the related
links. -/
def buildPageResult (url : String) (pg : Page) : DeepDocResult :=
  { title := if pg.title = "" then "Unknown API" else pg.title
    framework :=
      capitalizeFramework (if pg.framework = "" then extractFrameworkFromUrl url else pg.framework)
    typ := if pg.typ = "" then "class" else pg.typ
    description := if pg.description = "" then "No description available" else pg.description
    url := url
    availability := if pg.availability = "" then "iOS 13.0+" else pg.availability
    isDeprecated := pg.isDeprecated
    deprecationInfo := if pg.isDeprecated then some pg.deprecationText else none
    codeExamples := pg.codeExamples.take 3
    relatedApis := (jsSetDedup pg.relatedLinks).take 10
    properties := pg.properties.take 10
    methods := pg.methods.take 10
    fromCache := false }

/-- `DeepDocsScraper.scrapeApiPage`: answers from the in-memory URL cache
when possible, otherwise issues one network fetch; a fetch or parse failure
yields `null`. -/
def scrapeApiPage (env : FetchEnv) (σ : ScrapeState) (url : String) :
    Option DeepDocResult × ScrapeState :=
  match memFind σ.mem url with
  | some r => (some r, σ)
  | none =>
      let σ₁ := { σ with fetches := σ.fetches + 1 }
      match env.page url with
      | none => (none, σ₁)
      | some pg =>
          let result := buildPageResult url pg
          (some result, { σ₁ with mem := memWrite σ₁.mem url result })

/-- `DeepDocsScraper.scrapeRelatedApis`: re-fetches `mainUrl` directly
(bypassing the in-memory cache), extracts the related links, deduplicates
and keeps the first 5; a failure yields the empty list. -/
def scrapeRelatedApis (env : FetchEnv) (σ : ScrapeState) (mainUrl : String) :
    List String × ScrapeState :=
  let σ₁ := { σ with fetches := σ.fetches + 1 }
  match env.page mainUrl with
  | none => ([], σ₁)
  | some pg => ((jsSetDedup pg.relatedLinks).take 5, σ₁)

/-- `DeepDocsScraper.cacheResult`: converts a `DeepDocResult` into the
`cacheApi` input (properties as `name: type` strings, methods as
`name(params): returnType` strings) and persists it. -/
def cacheResult (σ : ScrapeState) (r : DeepDocResult) : ScrapeState :=
  let input : ApiDataInput :=
    { apiName := r.title
      framework := r.framework
      documentation := r.description
      properties := r.properties.map (fun p => p.name ++ ": " ++ p.typ)
      methods := r.methods.map (fun m =>
        m.name ++ "(" ++ String.intercalate ", " (m.parameters.map (·.name)) ++ "): " ++ m.returnType)
      examples := r.codeExamples
      relatedApis := r.relatedApis
      deprecationInfo :=
        if r.isDeprecated then
          some { isDeprecated := true
                 reason := some (if (r.deprecationInfo.getD "") = "" then
                   "This API is deprecated" else r.deprecationInfo.getD "")
                 alternative := some "Check Apple documentation for alternatives"
                 deprecatedSince := none }
        else none }
  let (st', meta') := cacheApi σ.store σ.meta input σ.now
  { σ with store := st', meta := meta' }

/-- `DeepDocsScraper.findMainApiPage`: one search fetch; on a usable first
result, resolves the (possibly relative) href and scrapes the page; any
failure yields `null`. -/
def findMainApiPage (env : FetchEnv) (σ : ScrapeState) (apiName : String)
    (framework : Option String) : Option DeepDocResult × ScrapeState :=
  let σ₁ := { σ with fetches := σ.fetches + 1 }
  match env.searchHref apiName framework with
  | none => (none, σ₁)
  | some href =>
      let url := if jsStartsWith href "http" then href else baseUrl ++ href
      scrapeApiPage env σ₁ url

/-- Step 4 of `DeepDocsScraper.scrapeApiInDepth`: the sequential loop over
the related URLs — durable-cache lookup first when a framework is known,
otherwise scrape the page and persist a success; failures are skipped. -/
def expandRelated (env : FetchEnv) (framework : Option String) :
    List String → ScrapeState → List DeepDocResult × ScrapeState
  | [], σ => ([], σ)
  | u :: rest, σ =>
      let cachedStep : Option DeepDocResult × ScrapeState :=
        match framework with
        | some fw => getCachedResult σ u fw
        | none => (none, σ)
      let docStep : Option DeepDocResult × ScrapeState :=
        match cachedStep with
        | (some d, σ₁) => (some d, σ₁)
        | (none, σ₁) =>
            match scrapeApiPage env σ₁ u with
            | (some r, σ₂) => (some r, cacheResult σ₂ r)
            | (none, σ₂) => (none, σ₂)
      let (others, σ₃) := expandRelated env framework rest docStep.2
      (match docStep.1 with
       | some d => d :: others
       | none => others, σ₃)

/-- Steps 2–4 of `DeepDocsScraper.scrapeApiInDepth`: find and scrape the
primary page, persist it, discover the related URLs, expand the first 10. -/
def scrapeFromWeb (env : FetchEnv) (σ : ScrapeState) (apiName : String)
    (framework : Option String) : List DeepDocResult × ScrapeState :=
  match findMainApiPage env σ apiName framework with
  | (none, σ₁) => ([], σ₁)
  | (some mainDoc, σ₁) =>
      let σ₂ := cacheResult σ₁ mainDoc
      let (relatedApis, σ₃) := scrapeRelatedApis env σ₂ mainDoc.url
      let (relatedDocs, σ₄) := expandRelated env framework (relatedApis.take 10) σ₃
      (mainDoc :: relatedDocs, σ₄)

/-- `DeepDocsScraper.scrapeApiInDepth`: durable-cache check first when a
framework is supplied, returning the cached primary plus the related cache
hits; otherwise the web path. -/
def scrapeApiInDepth (env : FetchEnv) (σ : ScrapeState) (apiName : String)
    (framework : Option String) : List DeepDocResult × ScrapeState :=
  match framework with
  | some fw =>
      match getCachedResult σ apiName fw with
      | (some cached, σ₁) =>
          let (relatedCached, σ₂) := searchRelatedInCache σ₁ cached.relatedApis fw
          let results := cached :: relatedCached
          if results.length > 0 then (results, σ₂)
          else scrapeFromWeb env σ₂ apiName framework
      | (none, σ₁) => scrapeFromWeb env σ₁ apiName framework
  | none => scrapeFromWeb env σ apiName framework

/-- Per-seed loop of
`EnhancedContextProvider.enhancePromptWithIntelligentRAG`: each seed is
resolved with `scrapeApiInDepth(api)` — no framework argument — and a
seed's failure leaves the other seeds' results in place. -/
def resolveAllGo (env : FetchEnv) : List String → ScrapeState → List DeepDocResult × ScrapeState
  | [], σ => ([], σ)
  | s :: rest, σ =>
      let (docs, σ₁) := scrapeApiInDepth env σ s none
      let (more, σ₂) := resolveAllGo env rest σ₁
      (docs ++ more, σ₂)

/-- The multi-seed coordinator: `expandedApis.slice(0, 8)` processed
sequentially. -/
def resolveAll (env : FetchEnv) (σ : ScrapeState) (seeds : List String) :
    List DeepDocResult × ScrapeState :=
  resolveAllGo env (seeds.take 8) σ

/-- The coordinator's `fromCache` statistic:
`deepDocumentation.filter(doc => doc.fromCache).length`. -/
def fromCacheCount (docs : List DeepDocResult) : Nat :=
  (docs.filter (·.fromCache)).length

/-! Basic properties of the store primitives. -/

theorem storeFind_write_self (st : Store) (k : String) (v : CachedApiData) :
    storeFind (storeWrite st k v) k = some v := by
  induction st with
  | nil => simp [storeWrite, storeFind]
  | cons p rest ih =>
      obtain ⟨k', v'⟩ := p
      by_cases h : k' = k
      · simp [storeWrite, h, storeFind]
      · simp [storeWrite, h, storeFind, ih]

theorem storeFind_write_ne (st : Store) (k k' : String) (v : CachedApiData)
    (h : k' ≠ k) : storeFind (storeWrite st k v) k' = storeFind st k' := by
  induction st with
  | nil => simp [storeWrite, storeFind, Ne.symm h]
  | cons p rest ih =>
      obtain ⟨k₀, v₀⟩ := p
      by_cases hk : k₀ = k
      · subst hk
        simp [storeWrite, storeFind, h, Ne.symm h]
      · simp [storeWrite, hk, storeFind, ih]

theorem storeWrite_length_of_found (st : Store) (k : String) (v e : CachedApiData)
    (h : storeFind st k = some e) : (storeWrite st k v).length = st.length := by
  induction st with
  | nil => simp [storeFind] at h
  | cons p rest ih =>
      obtain ⟨k₀, v₀⟩ := p
      by_cases hk : k₀ = k
      · simp [storeWrite, hk]
      · simp [storeFind, hk] at h
        simp [storeWrite, hk, ih h]

theorem storeWrite_forall {P : CachedApiData → Prop} (st : Store) (k : String)
    (v : CachedApiData) (hst : ∀ p ∈ st, P p.2) (hv : P v) :
    ∀ p ∈ storeWrite st k v, P p.2 := by
  induction st with
  | nil => simpa [storeWrite] using hv
  | cons q rest ih =>
      obtain ⟨k₀, v₀⟩ := q
      intro p hp
      by_cases hk : k₀ = k
      · simp [storeWrite, hk] at hp
        rcases hp with h | h
        · rw [h]; exact hv
        · exact hst _ (List.mem_cons_of_mem _ h)
      · simp [storeWrite, hk] at hp
        rcases hp with h | h
        · exact hst _ (by simp [h])
        · exact ih (fun q hq => hst q (List.mem_cons_of_mem _ hq)) _ h

theorem storeFind_forall {P : CachedApiData → Prop} (st : Store) (k : String)
    (e : CachedApiData) (hst : ∀ p ∈ st, P p.2) (h : storeFind st k = some e) : P e := by
  induction st with
  | nil => simp [storeFind] at h
  | cons p rest ih =>
      obtain ⟨k₀, v₀⟩ := p
      by_cases hk : k₀ = k
      · simp [storeFind, hk] at h
        rw [← h]
        exact hst (k₀, v₀) (by simp)
      · simp [storeFind, hk] at h
        exact ih (fun q hq => hst q (List.mem_cons_of_mem _ hq)) h

theorem memFind_write_self (m : List (String × DeepDocResult)) (k : String)
    (v : DeepDocResult) : memFind (memWrite m k v) k = some v := by
  induction m with
  | nil => simp [memWrite, memFind]
  | cons p rest ih =>
      obtain ⟨k', v'⟩ := p
      by_cases h : k' = k
      · simp [memWrite, h, memFind]
      · simp [memWrite, h, memFind, ih]

theorem memWrite_forall {P : DeepDocResult → Prop} (m : List (String × DeepDocResult))
    (k : String) (v : DeepDocResult) (hm : ∀ p ∈ m, P p.2) (hv : P v) :
    ∀ p ∈ memWrite m k v, P p.2 := by
  induction m with
  | nil => simpa [memWrite] using hv
  | cons q rest ih =>
      obtain ⟨k₀, v₀⟩ := q
      intro p hp
      by_cases hk : k₀ = k
      · simp [memWrite, hk] at hp
        rcases hp with h | h
        · rw [h]; exact hv
        · exact hm _ (List.mem_cons_of_mem _ h)
      · simp [memWrite, hk] at hp
        rcases hp with h | h
        · exact hm _ (by simp [h])
        · exact ih (fun q hq => hm q (List.mem_cons_of_mem _ hq)) _ h

theorem memFind_forall {P : DeepDocResult → Prop} (m : List (String × DeepDocResult))
    (k : String) (e : DeepDocResult) (hm : ∀ p ∈ m, P p.2) (h : memFind m k = some e) :
    P e := by
  induction m with
  | nil => simp [memFind] at h
  | cons p rest ih =>
      obtain ⟨k₀, v₀⟩ := p
      by_cases hk : k₀ = k
      · simp [memFind, hk] at h
        rw [← h]
        exact hm (k₀, v₀) (by simp)
      · simp [memFind, hk] at h
        exact ih (fun q hq => hm q (List.mem_cons_of_mem _ hq)) h

/-! Properties of the eviction order and the deduplication helper. -/

theorem evictionLE_trans (a b c : CachedApiData) (h₁ : evictionLE a b = true)
    (h₂ : evictionLE b c = true) : evictionLE a c = true := by
  simp only [evictionLE, decide_eq_true_eq] at *
  omega

theorem evictionLE_total (a b : CachedApiData) : (evictionLE a b || evictionLE b a) = true := by
  simp only [evictionLE, Bool.or_eq_true, decide_eq_true_eq]
  omega

theorem jsSetDedupAux_nodup (l : List String) :
    ∀ seen : List String, (jsSetDedupAux seen l).Nodup ∧ ∀ x ∈ jsSetDedupAux seen l, x ∉ seen := by
  induction l with
  | nil => intro seen; simp [jsSetDedupAux]
  | cons x xs ih =>
      intro seen
      by_cases hx : x ∈ seen
      · simpa [jsSetDedupAux, hx] using ih seen
      · obtain ⟨hnd, hni⟩ := ih (x :: seen)
        refine ⟨?_, ?_⟩
        · simp only [jsSetDedupAux, if_neg hx, List.nodup_cons]
          exact ⟨fun hmem => (hni x hmem) (by simp), hnd⟩
        · intro y hy
          simp only [jsSetDedupAux, if_neg hx, List.mem_cons] at hy
          rcases hy with rfl | hy
          · exact hx
          · exact fun hmem => (hni y hy) (List.mem_cons_of_mem _ hmem)

theorem jsSetDedup_nodup (l : List String) : (jsSetDedup l).Nodup :=
  (jsSetDedupAux_nodup l []).1

theorem buildPageResult_relatedApis_nodup (url : String) (pg : Page) :
    (buildPageResult url pg).relatedApis.Nodup :=
  (List.take_sublist 10 _).nodup (jsSetDedup_nodup pg.relatedLinks)

theorem statsFold_apiCount (l : List (String × CachedApiData)) (acc : StatsAcc) :
    (l.foldl (fun a p => statsStep a p.2) acc).apiCount = acc.apiCount + l.length := by
  induction l generalizing acc with
  | nil => simp
  | cons p rest ih =>
      rw [List.foldl_cons, ih]
      simp [statsStep]
      omega

/-! Effect lemmas for the orchestrator's cache-lookup path. -/

theorem getCachedResult_fetches (σ : ScrapeState) (a fw : String) :
    (getCachedResult σ a fw).2.fetches = σ.fetches := by
  simp only [getCachedResult]
  split <;> rfl

theorem getCachedResult_mem (σ : ScrapeState) (a fw : String) :
    (getCachedResult σ a fw).2.mem = σ.mem := by
  simp only [getCachedResult]
  split <;> rfl

theorem getCachedResult_now (σ : ScrapeState) (a fw : String) :
    (getCachedResult σ a fw).2.now = σ.now := by
  simp only [getCachedResult]
  split <;> rfl

theorem getCachedResult_meta (σ : ScrapeState) (a fw : String) :
    (getCachedResult σ a fw).2.meta = σ.meta := by
  simp only [getCachedResult]
  split <;> rfl

theorem getCachedResult_some_fromCache (σ : ScrapeState) (a fw : String)
    (d : DeepDocResult) (σ' : ScrapeState) (h : getCachedResult σ a fw = (some d, σ')) :
    d.fromCache = true := by
  simp only [getCachedResult] at h
  split at h
  · simp at h
  · simp only [Prod.mk.injEq, Option.some.injEq] at h
    rw [← h.1]
    rfl

theorem searchRelatedGo_spec (fw : String) (l : List String) : ∀ σ : ScrapeState,
    (searchRelatedGo fw σ l).2.fetches = σ.fetches ∧
    (searchRelatedGo fw σ l).2.mem = σ.mem ∧
    (searchRelatedGo fw σ l).2.now = σ.now ∧
    (searchRelatedGo fw σ l).1.length ≤ l.length ∧
    (∀ d ∈ (searchRelatedGo fw σ l).1, d.fromCache = true) := by
  induction l with
  | nil => intro σ; simp [searchRelatedGo]
  | cons a rest ih =>
      intro σ
      rcases hq : getCachedResult σ a fw with ⟨c, σ₁⟩
      have hf := getCachedResult_fetches σ a fw
      have hm := getCachedResult_mem σ a fw
      have hn := getCachedResult_now σ a fw
      rw [hq] at hf hm hn
      obtain ⟨ihf, ihm, ihn, ihlen, ihall⟩ := ih σ₁
      cases c with
      | none =>
          simp only [searchRelatedGo, hq]
          exact ⟨by rw [ihf, hf], by rw [ihm, hm], by rw [ihn, hn],
            Nat.le_succ_of_le ihlen, ihall⟩
      | some d =>
          simp only [searchRelatedGo, hq]
          refine ⟨by rw [ihf, hf], by rw [ihm, hm], by rw [ihn, hn],
            by simpa using Nat.succ_le_succ ihlen, ?_⟩
          intro x hx
          rcases List.mem_cons.mp hx with rfl | hx
          · exact getCachedResult_some_fromCache σ a fw x σ₁ hq
          · exact ihall x hx

/-- Hit-path behaviour of `scrapeApiInDepth`, shared by several claims:
with the primary key present in the durable store, the call fetches
nothing, returns the refreshed cached entry first followed by at most 5
cache-served related entries. -/
theorem scrapeApiInDepth_hit_spec (env : FetchEnv) (σ : ScrapeState)
    (id fw : String) (e : CachedApiData)
    (h : storeFind σ.store (cacheKey id fw) = some e) :
    (scrapeApiInDepth env σ id (some fw)).2.fetches = σ.fetches ∧
    (scrapeApiInDepth env σ id (some fw)).1.head? =
      some (convertCachedToDeepDoc
        { e with lastAccessed := σ.now, accessCount := e.accessCount + 1 }) ∧
    (∀ d ∈ (scrapeApiInDepth env σ id (some fw)).1.tail, d.fromCache = true) ∧
    (scrapeApiInDepth env σ id (some fw)).1.tail.length ≤ 5 := by
  have hg : getCachedResult σ id fw =
      (some (convertCachedToDeepDoc
        { e with lastAccessed := σ.now, accessCount := e.accessCount + 1 }),
       { σ with cacheReads := σ.cacheReads + 1,
                store := storeWrite σ.store (cacheKey id fw)
                  { e with lastAccessed := σ.now, accessCount := e.accessCount + 1 } }) := by
    simp only [getCachedResult, getCachedApi, h]
  rcases hsr : searchRelatedInCache
      { σ with cacheReads := σ.cacheReads + 1,
               store := storeWrite σ.store (cacheKey id fw)
                 { e with lastAccessed := σ.now, accessCount := e.accessCount + 1 } }
      (convertCachedToDeepDoc
        { e with lastAccessed := σ.now, accessCount := e.accessCount + 1 }).relatedApis fw
    with ⟨hits, σ₂⟩
  have hmain : scrapeApiInDepth env σ id (some fw) =
      (convertCachedToDeepDoc
        { e with lastAccessed := σ.now, accessCount := e.accessCount + 1 } :: hits, σ₂) := by
    simp only [scrapeApiInDepth, hg, hsr, List.length_cons]
    simp
  obtain ⟨hf, _, _, hlen, hall⟩ := searchRelatedGo_spec fw
    ((convertCachedToDeepDoc
        { e with lastAccessed := σ.now, accessCount := e.accessCount + 1 }).relatedApis.take 5)
    { σ with cacheReads := σ.cacheReads + 1,
             store := storeWrite σ.store (cacheKey id fw)
               { e with lastAccessed := σ.now, accessCount := e.accessCount + 1 } }
  rw [show searchRelatedGo fw
      { σ with cacheReads := σ.cacheReads + 1,
               store := storeWrite σ.store (cacheKey id fw)
                 { e with lastAccessed := σ.now, accessCount := e.accessCount + 1 } }
      ((convertCachedToDeepDoc
        { e with lastAccessed := σ.now, accessCount := e.accessCount + 1 }).relatedApis.take 5) =
      (hits, σ₂) from hsr] at hf hlen hall
  rw [hmain]
  refine ⟨hf, rfl, hall, ?_⟩
  exact le_trans hlen (by simp [List.length_take])

/-! Effect lemmas for the web-scraping path. -/

/-- Invariant of reachable states: every record in the in-memory URL cache
was built by `scrapeApiPage` and therefore does not carry the
cache-provenance flag. -/
def FlagInv (σ : ScrapeState) : Prop :=
  ∀ p ∈ σ.mem, p.2.fromCache = false

theorem scrapeApiPage_cacheReads (env : FetchEnv) (σ : ScrapeState) (url : String) :
    (scrapeApiPage env σ url).2.cacheReads = σ.cacheReads := by
  simp only [scrapeApiPage]
  split
  · rfl
  · split <;> rfl

theorem scrapeApiPage_store (env : FetchEnv) (σ : ScrapeState) (url : String) :
    (scrapeApiPage env σ url).2.store = σ.store := by
  simp only [scrapeApiPage]
  split
  · rfl
  · split <;> rfl

theorem scrapeApiPage_now (env : FetchEnv) (σ : ScrapeState) (url : String) :
    (scrapeApiPage env σ url).2.now = σ.now := by
  simp only [scrapeApiPage]
  split
  · rfl
  · split <;> rfl

theorem scrapeApiPage_flag (env : FetchEnv) (σ : ScrapeState) (url : String)
    (hσ : FlagInv σ) :
    FlagInv (scrapeApiPage env σ url).2 ∧
    (∀ d, (scrapeApiPage env σ url).1 = some d → d.fromCache = false) := by
  simp only [scrapeApiPage]
  split
  · next r hr =>
      refine ⟨hσ, fun d hd => ?_⟩
      simp only [Option.some.injEq] at hd
      rw [← hd]
      exact memFind_forall (P := fun x => x.fromCache = false) σ.mem url r hσ hr
  · split
    · exact ⟨hσ, by simp⟩
    · next pg hpg =>
        constructor
        · intro p hp
          exact memWrite_forall (P := fun x => x.fromCache = false) σ.mem url
            (buildPageResult url pg) hσ rfl p hp
        · intro d hd
          simp only [Option.some.injEq] at hd
          rw [← hd]
          rfl

theorem cacheResult_mem (σ : ScrapeState) (r : DeepDocResult) :
    (cacheResult σ r).mem = σ.mem := rfl

theorem cacheResult_cacheReads (σ : ScrapeState) (r : DeepDocResult) :
    (cacheResult σ r).cacheReads = σ.cacheReads := rfl

theorem cacheResult_fetches (σ : ScrapeState) (r : DeepDocResult) :
    (cacheResult σ r).fetches = σ.fetches := rfl

theorem cacheResult_now (σ : ScrapeState) (r : DeepDocResult) :
    (cacheResult σ r).now = σ.now := rfl

theorem scrapeRelatedApis_state (env : FetchEnv) (σ : ScrapeState) (u : String) :
    (scrapeRelatedApis env σ u).2 = { σ with fetches := σ.fetches + 1 } := by
  simp only [scrapeRelatedApis]
  split <;> rfl

theorem scrapeRelatedApis_length (env : FetchEnv) (σ : ScrapeState) (u : String) :
    (scrapeRelatedApis env σ u).1.length ≤ 5 := by
  simp only [scrapeRelatedApis]
  split
  · simp
  · simp [List.length_take]

theorem expandRelated_none_spec (env : FetchEnv) (l : List String) : ∀ σ : ScrapeState,
    (expandRelated env none l σ).2.cacheReads = σ.cacheReads ∧
    (FlagInv σ → FlagInv (expandRelated env none l σ).2 ∧
      ∀ d ∈ (expandRelated env none l σ).1, d.fromCache = false) := by
  induction l with
  | nil => intro σ; simp [expandRelated]
  | cons u rest ih =>
      intro σ
      rcases hp : scrapeApiPage env σ u with ⟨r, σ₂⟩
      have hpc := scrapeApiPage_cacheReads env σ u
      rw [hp] at hpc
      cases r with
      | none =>
          obtain ⟨ihc, ihflag⟩ := ih σ₂
          simp only [expandRelated, hp]
          refine ⟨by rw [ihc, hpc], fun hσ => ?_⟩
          have hflag := (scrapeApiPage_flag env σ u hσ).1
          rw [hp] at hflag
          exact ihflag hflag
      | some d =>
          obtain ⟨ihc, ihflag⟩ := ih (cacheResult σ₂ d)
          simp only [expandRelated, hp]
          refine ⟨by rw [ihc, cacheResult_cacheReads, hpc], fun hσ => ?_⟩
          obtain ⟨hmemflag, hdocflag⟩ := scrapeApiPage_flag env σ u hσ
          rw [hp] at hmemflag hdocflag
          have hflag : FlagInv (cacheResult σ₂ d) := by
            intro p hpmem
            rw [cacheResult_mem] at hpmem
            exact hmemflag p hpmem
          obtain ⟨ihf, ihall⟩ := ihflag hflag
          refine ⟨ihf, fun x hx => ?_⟩
          rcases List.mem_cons.mp hx with rfl | hx
          · exact hdocflag x rfl
          · exact ihall x hx

theorem findMainApiPage_cacheReads (env : FetchEnv) (σ : ScrapeState) (id : String)
    (fwo : Option String) :
    (findMainApiPage env σ id fwo).2.cacheReads = σ.cacheReads := by
  simp only [findMainApiPage]
  split
  · rfl
  · exact scrapeApiPage_cacheReads env _ _

theorem findMainApiPage_flag (env : FetchEnv) (σ : ScrapeState) (id : String)
    (fwo : Option String) (hσ : FlagInv σ) :
    FlagInv (findMainApiPage env σ id fwo).2 ∧
    (∀ d, (findMainApiPage env σ id fwo).1 = some d → d.fromCache = false) := by
  simp only [findMainApiPage]
  split
  · exact ⟨hσ, by simp⟩
  · exact scrapeApiPage_flag env _ _ hσ

theorem scrapeFromWeb_none_spec (env : FetchEnv) (σ : ScrapeState) (id : String) :
    (scrapeFromWeb env σ id none).2.cacheReads = σ.cacheReads ∧
    (FlagInv σ → FlagInv (scrapeFromWeb env σ id none).2 ∧
      ∀ d ∈ (scrapeFromWeb env σ id none).1, d.fromCache = false) := by
  rcases hm : findMainApiPage env σ id none with ⟨m, σ₁⟩
  have hmc : σ₁.cacheReads = σ.cacheReads := by
    have h' := findMainApiPage_cacheReads env σ id none
    rw [hm] at h'
    exact h'
  cases m with
  | none =>
      simp only [scrapeFromWeb, hm]
      refine ⟨hmc, fun hσ => ⟨?_, by simp⟩⟩
      have := (findMainApiPage_flag env σ id none hσ).1
      rwa [hm] at this
  | some mainDoc =>
      rcases hra : scrapeRelatedApis env (cacheResult σ₁ mainDoc) mainDoc.url with ⟨rel, σ₃⟩
      have hras : σ₃ =
          { cacheResult σ₁ mainDoc with fetches := (cacheResult σ₁ mainDoc).fetches + 1 } := by
        have h' := scrapeRelatedApis_state env (cacheResult σ₁ mainDoc) mainDoc.url
        rw [hra] at h'
        exact h'
      obtain ⟨hec, heflag⟩ := expandRelated_none_spec env (rel.take 10) σ₃
      simp only [scrapeFromWeb, hm, hra]
      constructor
      · rw [hec, hras]
        exact hmc
      · intro hσ
        obtain ⟨hmemflag, hdocflag⟩ := findMainApiPage_flag env σ id none hσ
        rw [hm] at hmemflag hdocflag
        have hflag₃ : FlagInv σ₃ := by
          rw [hras]
          intro p hp
          exact hmemflag p hp
        obtain ⟨hef, heall⟩ := heflag hflag₃
        refine ⟨hef, fun x hx => ?_⟩
        rcases List.mem_cons.mp hx with rfl | hx
        · exact hdocflag x rfl
        · exact heall x hx

theorem scrapeApiInDepth_none (env : FetchEnv) (σ : ScrapeState) (id : String) :
    scrapeApiInDepth env σ id none = scrapeFromWeb env σ id none := rfl

/-! Claim C10. -/

/-- C10: the multi-seed coordinator calls the orchestrator without a
framework argument, and both durable-cache lookups in the orchestrator are
gated on a framework being supplied — so a `resolveAll` run performs zero
durable-cache reads, every returned record has `fromCache = false`
(starting from any state whose in-memory cache holds only scraped records,
as every reachable state does), and the reported `fromCache` count is 0. -/
theorem resolveAll_never_reads_cache (env : FetchEnv) (σ : ScrapeState)
    (seeds : List String) (hσ : FlagInv σ) :
    (resolveAll env σ seeds).2.cacheReads = σ.cacheReads ∧
    (∀ d ∈ (resolveAll env σ seeds).1, d.fromCache = false) ∧
    fromCacheCount (resolveAll env σ seeds).1 = 0 := by
  suffices h : ∀ (l : List String) (σ' : ScrapeState), FlagInv σ' →
      (resolveAllGo env l σ').2.cacheReads = σ'.cacheReads ∧
      FlagInv (resolveAllGo env l σ').2 ∧
      ∀ d ∈ (resolveAllGo env l σ').1, d.fromCache = false by
    obtain ⟨h₁, _, h₃⟩ := h (seeds.take 8) σ hσ
    refine ⟨h₁, h₃, ?_⟩
    simp only [fromCacheCount]
    rw [List.filter_eq_nil_iff.mpr (fun d hd => by simp [h₃ d hd])]
    rfl
  intro l
  induction l with
  | nil => intro σ' hσ'; exact ⟨rfl, hσ', by simp [resolveAllGo]⟩
  | cons s rest ih =>
      intro σ' hσ'
      rcases hs : scrapeApiInDepth env σ' s none with ⟨docs, σ₁⟩
      have hss := scrapeFromWeb_none_spec env σ' s
      rw [← scrapeApiInDepth_none, hs] at hss
      obtain ⟨hc₁, hflag₁⟩ := hss
      obtain ⟨hf₁, hall₁⟩ := hflag₁ hσ'
      obtain ⟨ihc, ihf, ihall⟩ := ih σ₁ hf₁
      simp only [resolveAllGo, hs]
      refine ⟨by rw [ihc, hc₁], ihf, fun d hd => ?_⟩
      rcases List.mem_append.mp hd with hd | hd
      · exact hall₁ d hd
      · exact ihall d hd

/-! Claim C9. -/

/-- C9: a seed whose search fetch fails entirely contributes the empty list
and one counted fetch, and the batch result still concatenates the entries
of the surrounding seeds — the failure never aborts the multi-seed
operation (every embedded operation is total: the caller always receives a
list). -/
theorem resolveAll_tolerates_failed_seed (env : FetchEnv) (σ : ScrapeState)
    (a b c : String) (hb : env.searchHref b none = none) :
    (scrapeApiInDepth env (scrapeApiInDepth env σ a none).2 b none).1 = [] ∧
    (resolveAll env σ [a, b, c]).1 =
      (scrapeApiInDepth env σ a none).1 ++
      (scrapeApiInDepth env
        { (scrapeApiInDepth env σ a none).2 with
          fetches := (scrapeApiInDepth env σ a none).2.fetches + 1 } c none).1 := by
  have hbfail : ∀ σ' : ScrapeState,
      scrapeApiInDepth env σ' b none = ([], { σ' with fetches := σ'.fetches + 1 }) := by
    intro σ'
    simp only [scrapeApiInDepth, scrapeFromWeb, findMainApiPage, hb]
  rcases hA : scrapeApiInDepth env σ a none with ⟨ra, σa⟩
  rcases hC : scrapeApiInDepth env { σa with fetches := σa.fetches + 1 } c none
    with ⟨rc, σc⟩
  constructor
  · show (scrapeApiInDepth env σa b none).1 = []
    rw [hbfail σa]
  · show (resolveAllGo env [a, b, c] σ).1 = ra ++ rc
    simp only [resolveAllGo, hA, hbfail σa, hC, List.nil_append, List.append_nil]

/-! Fetch-count bounds for one `scrapeApiInDepth` call. -/

theorem scrapeApiPage_fetches_le (env : FetchEnv) (σ : ScrapeState) (url : String) :
    (scrapeApiPage env σ url).2.fetches ≤ σ.fetches + 1 := by
  simp only [scrapeApiPage]
  split
  · exact Nat.le_succ σ.fetches
  · split
    · exact Nat.le_refl _
    · exact Nat.le_refl _

theorem findMainApiPage_fetches_le (env : FetchEnv) (σ : ScrapeState) (id : String)
    (fwo : Option String) :
    (findMainApiPage env σ id fwo).2.fetches ≤ σ.fetches + 2 := by
  simp only [findMainApiPage]
  split
  · exact Nat.le_succ (σ.fetches + 1)
  · refine le_trans (scrapeApiPage_fetches_le env _ _) ?_
    show σ.fetches + 1 + 1 ≤ σ.fetches + 2
    omega

theorem expandRelated_fetches_le (env : FetchEnv) (fwo : Option String) (l : List String) :
    ∀ σ : ScrapeState, (expandRelated env fwo l σ).2.fetches ≤ σ.fetches + l.length := by
  induction l with
  | nil => intro σ; simp [expandRelated]
  | cons u rest ih =>
      intro σ
      have step : ∀ σmid : ScrapeState, σmid.fetches ≤ σ.fetches + 1 →
          (expandRelated env fwo rest σmid).2.fetches ≤ σ.fetches + (u :: rest).length := by
        intro σmid hmid
        calc (expandRelated env fwo rest σmid).2.fetches
            ≤ σmid.fetches + rest.length := ih σmid
          _ ≤ σ.fetches + 1 + rest.length := Nat.add_le_add_right hmid _
          _ = σ.fetches + (u :: rest).length := by simp [List.length_cons]; omega
      cases fwo with
      | none =>
          rcases hp : scrapeApiPage env σ u with ⟨r, σ₂⟩
          have h2 : σ₂.fetches ≤ σ.fetches + 1 := by
            have h' := scrapeApiPage_fetches_le env σ u
            rw [hp] at h'
            exact h'
          cases r with
          | none =>
              rcases he : expandRelated env none rest σ₂ with ⟨others, σ₃⟩
              have h3 := step σ₂ h2
              rw [he] at h3
              simp only [expandRelated, hp, he]
              exact h3
          | some d =>
              rcases he : expandRelated env none rest (cacheResult σ₂ d) with ⟨others, σ₃⟩
              have h3 := step (cacheResult σ₂ d) (by rw [cacheResult_fetches]; exact h2)
              rw [he] at h3
              simp only [expandRelated, hp, he]
              exact h3
      | some fw =>
          rcases hq : getCachedResult σ u fw with ⟨c, σ₁⟩
          have h1 : σ₁.fetches = σ.fetches := by
            have h' := getCachedResult_fetches σ u fw
            rw [hq] at h'
            exact h'
          cases c with
          | some d =>
              rcases he : expandRelated env (some fw) rest σ₁ with ⟨others, σ₃⟩
              have h3 := step σ₁ (by omega)
              rw [he] at h3
              simp only [expandRelated, hq, he]
              exact h3
          | none =>
              rcases hp : scrapeApiPage env σ₁ u with ⟨r, σ₂⟩
              have h2 : σ₂.fetches ≤ σ.fetches + 1 := by
                have h' := scrapeApiPage_fetches_le env σ₁ u
                rw [hp] at h'
                have h'' : σ₂.fetches ≤ σ₁.fetches + 1 := h'
                omega
              cases r with
              | none =>
                  rcases he : expandRelated env (some fw) rest σ₂ with ⟨others, σ₃⟩
                  have h3 := step σ₂ h2
                  rw [he] at h3
                  simp only [expandRelated, hq, hp, he]
                  exact h3
              | some d =>
                  rcases he : expandRelated env (some fw) rest (cacheResult σ₂ d)
                    with ⟨others, σ₃⟩
                  have h3 := step (cacheResult σ₂ d) (by rw [cacheResult_fetches]; exact h2)
                  rw [he] at h3
                  simp only [expandRelated, hq, hp, he]
                  exact h3

theorem scrapeFromWeb_fetches_le (env : FetchEnv) (σ : ScrapeState) (id : String)
    (fwo : Option String) :
    (scrapeFromWeb env σ id fwo).2.fetches ≤ σ.fetches + 8 := by
  rcases hm : findMainApiPage env σ id fwo with ⟨m, σ₁⟩
  have h1 : σ₁.fetches ≤ σ.fetches + 2 := by
    have h' := findMainApiPage_fetches_le env σ id fwo
    rw [hm] at h'
    exact h'
  cases m with
  | none =>
      simp only [scrapeFromWeb, hm]
      omega
  | some mainDoc =>
      rcases hra : scrapeRelatedApis env (cacheResult σ₁ mainDoc) mainDoc.url with ⟨rel, σ₃⟩
      have h3 : σ₃.fetches = σ₁.fetches + 1 := by
        have h' := scrapeRelatedApis_state env (cacheResult σ₁ mainDoc) mainDoc.url
        rw [hra] at h'
        rw [show σ₃ = _ from h']
        rfl
      have hrel : rel.length ≤ 5 := by
        have h' := scrapeRelatedApis_length env (cacheResult σ₁ mainDoc) mainDoc.url
        rw [hra] at h'
        exact h'
      rcases he : expandRelated env fwo (rel.take 10) σ₃ with ⟨docs, σ₄⟩
      have h4 : σ₄.fetches ≤ σ₃.fetches + (rel.take 10).length := by
        have h' := expandRelated_fetches_le env fwo (rel.take 10) σ₃
        rw [he] at h'
        exact h'
      have htk : (rel.take 10).length ≤ 5 := by
        rw [List.length_take]
        exact le_trans (min_le_right _ _) hrel
      simp only [scrapeFromWeb, hm, hra, he]
      omega

/-! Preservation of the no-duplicate invariant on `relatedApis`. -/

/-- Invariant of reachable states: every record in either cache has a
deduplicated `relatedApis` list (both caches are populated only from
`buildPageResult`, whose list passes through `new Set`). -/
def NodupInv (σ : ScrapeState) : Prop :=
  (∀ p ∈ σ.mem, p.2.relatedApis.Nodup) ∧ (∀ p ∈ σ.store, p.2.relatedApis.Nodup)

theorem getCachedApi_store_nodup (store : Store) (a fw : String) (now : Nat)
    (hst : ∀ p ∈ store, p.2.relatedApis.Nodup) :
    (∀ p ∈ (getCachedApi store a fw now).2, p.2.relatedApis.Nodup) ∧
    (∀ d, (getCachedApi store a fw now).1 = some d → d.relatedApis.Nodup) := by
  unfold getCachedApi
  split
  · exact ⟨hst, by simp⟩
  · next e heq =>
      have he : e.relatedApis.Nodup :=
        storeFind_forall (P := fun x => x.relatedApis.Nodup) store _ e hst heq
      refine ⟨storeWrite_forall (P := fun x => x.relatedApis.Nodup) store _ _ hst he,
        fun d hd => ?_⟩
      simp only [Option.some.injEq] at hd
      rw [← hd]
      exact he

theorem getCachedResult_nodup (σ : ScrapeState) (a fw : String) (hσ : NodupInv σ) :
    NodupInv (getCachedResult σ a fw).2 ∧
    (∀ d, (getCachedResult σ a fw).1 = some d → d.relatedApis.Nodup) := by
  obtain ⟨hm, hs⟩ := hσ
  obtain ⟨hs', hd'⟩ := getCachedApi_store_nodup σ.store a fw σ.now hs
  simp only [getCachedResult]
  split
  · next st' heq =>
      rw [heq] at hs'
      exact ⟨⟨hm, hs'⟩, by simp⟩
  · next d st' heq =>
      rw [heq] at hs' hd'
      refine ⟨⟨hm, hs'⟩, fun x hx => ?_⟩
      simp only [Option.some.injEq] at hx
      rw [← hx]
      exact hd' d rfl

theorem scrapeApiPage_nodup (env : FetchEnv) (σ : ScrapeState) (url : String)
    (hσ : NodupInv σ) :
    NodupInv (scrapeApiPage env σ url).2 ∧
    (∀ d, (scrapeApiPage env σ url).1 = some d → d.relatedApis.Nodup) := by
  obtain ⟨hm, hs⟩ := hσ
  simp only [scrapeApiPage]
  split
  · next r hr =>
      refine ⟨⟨hm, hs⟩, fun d hd => ?_⟩
      simp only [Option.some.injEq] at hd
      rw [← hd]
      exact memFind_forall (P := fun x => x.relatedApis.Nodup) σ.mem url r hm hr
  · split
    · exact ⟨⟨hm, hs⟩, by simp⟩
    · next pg hpg =>
        refine ⟨⟨?_, hs⟩, fun d hd => ?_⟩
        · exact memWrite_forall (P := fun x => x.relatedApis.Nodup) σ.mem url _ hm
            (buildPageResult_relatedApis_nodup url pg)
        · simp only [Option.some.injEq] at hd
          rw [← hd]
          exact buildPageResult_relatedApis_nodup url pg

theorem cacheResult_nodup (σ : ScrapeState) (r : DeepDocResult) (hσ : NodupInv σ)
    (hr : r.relatedApis.Nodup) : NodupInv (cacheResult σ r) := by
  obtain ⟨hm, hs⟩ := hσ
  exact ⟨hm, storeWrite_forall (P := fun x => x.relatedApis.Nodup) σ.store _ _ hs hr⟩

theorem searchRelatedGo_nodup (fw : String) (l : List String) : ∀ σ : ScrapeState,
    NodupInv σ →
    NodupInv (searchRelatedGo fw σ l).2 ∧
    ∀ d ∈ (searchRelatedGo fw σ l).1, d.relatedApis.Nodup := by
  induction l with
  | nil => intro σ hσ; simpa [searchRelatedGo] using hσ
  | cons a rest ih =>
      intro σ hσ
      rcases hq : getCachedResult σ a fw with ⟨c, σ₁⟩
      obtain ⟨hσ₁, hdnod⟩ := getCachedResult_nodup σ a fw hσ
      rw [hq] at hσ₁ hdnod
      cases c with
      | none =>
          simpa only [searchRelatedGo, hq] using ih σ₁ hσ₁
      | some d =>
          obtain ⟨ihinv, ihall⟩ := ih σ₁ hσ₁
          simp only [searchRelatedGo, hq]
          refine ⟨ihinv, fun x hx => ?_⟩
          rcases List.mem_cons.mp hx with rfl | hx
          · exact hdnod x rfl
          · exact ihall x hx

theorem findMainApiPage_nodup (env : FetchEnv) (σ : ScrapeState) (id : String)
    (fwo : Option String) (hσ : NodupInv σ) :
    NodupInv (findMainApiPage env σ id fwo).2 ∧
    (∀ d, (findMainApiPage env σ id fwo).1 = some d → d.relatedApis.Nodup) := by
  simp only [findMainApiPage]
  split
  · exact ⟨hσ, by simp⟩
  · exact scrapeApiPage_nodup env _ _ hσ

theorem expandRelated_nodup (env : FetchEnv) (fwo : Option String) (l : List String) :
    ∀ σ : ScrapeState, NodupInv σ →
    NodupInv (expandRelated env fwo l σ).2 ∧
    ∀ d ∈ (expandRelated env fwo l σ).1, d.relatedApis.Nodup := by
  induction l with
  | nil => intro σ hσ; simpa [expandRelated] using hσ
  | cons u rest ih =>
      intro σ hσ
      cases fwo with
      | none =>
          rcases hp : scrapeApiPage env σ u with ⟨r, σ₂⟩
          obtain ⟨hσ₂, hrd⟩ := scrapeApiPage_nodup env σ u hσ
          rw [hp] at hσ₂ hrd
          cases r with
          | none =>
              rcases he : expandRelated env none rest σ₂ with ⟨others, σ₃⟩
              obtain ⟨hi, ha⟩ := ih σ₂ hσ₂
              rw [he] at hi ha
              simp only [expandRelated, hp, he]
              exact ⟨hi, ha⟩
          | some d =>
              have hdn : d.relatedApis.Nodup := hrd d rfl
              rcases he : expandRelated env none rest (cacheResult σ₂ d) with ⟨others, σ₃⟩
              obtain ⟨hi, ha⟩ := ih (cacheResult σ₂ d) (cacheResult_nodup σ₂ d hσ₂ hdn)
              rw [he] at hi ha
              simp only [expandRelated, hp, he]
              refine ⟨hi, fun x hx => ?_⟩
              rcases List.mem_cons.mp hx with rfl | hx
              · exact hdn
              · exact ha x hx
      | some fw =>
          rcases hq : getCachedResult σ u fw with ⟨c, σ₁⟩
          obtain ⟨hσ₁, hcd⟩ := getCachedResult_nodup σ u fw hσ
          rw [hq] at hσ₁ hcd
          cases c with
          | some d =>
              rcases he : expandRelated env (some fw) rest σ₁ with ⟨others, σ₃⟩
              obtain ⟨hi, ha⟩ := ih σ₁ hσ₁
              rw [he] at hi ha
              simp only [expandRelated, hq, he]
              refine ⟨hi, fun x hx => ?_⟩
              rcases List.mem_cons.mp hx with rfl | hx
              · exact hcd x rfl
              · exact ha x hx
          | none =>
              rcases hp : scrapeApiPage env σ₁ u with ⟨r, σ₂⟩
              obtain ⟨hσ₂, hrd⟩ := scrapeApiPage_nodup env σ₁ u hσ₁
              rw [hp] at hσ₂ hrd
              cases r with
              | none =>
                  rcases he : expandRelated env (some fw) rest σ₂ with ⟨others, σ₃⟩
                  obtain ⟨hi, ha⟩ := ih σ₂ hσ₂
                  rw [he] at hi ha
                  simp only [expandRelated, hq, hp, he]
                  exact ⟨hi, ha⟩
              | some d =>
                  have hdn : d.relatedApis.Nodup := hrd d rfl
                  rcases he : expandRelated env (some fw) rest (cacheResult σ₂ d)
                    with ⟨others, σ₃⟩
                  obtain ⟨hi, ha⟩ := ih (cacheResult σ₂ d) (cacheResult_nodup σ₂ d hσ₂ hdn)
                  rw [he] at hi ha
                  simp only [expandRelated, hq, hp, he]
                  refine ⟨hi, fun x hx => ?_⟩
                  rcases List.mem_cons.mp hx with rfl | hx
                  · exact hdn
                  · exact ha x hx

theorem scrapeFromWeb_nodup (env : FetchEnv) (σ : ScrapeState) (id : String)
    (fwo : Option String) (hσ : NodupInv σ) :
    NodupInv (scrapeFromWeb env σ id fwo).2 ∧
    ∀ d ∈ (scrapeFromWeb env σ id fwo).1, d.relatedApis.Nodup := by
  rcases hm : findMainApiPage env σ id fwo with ⟨m, σ₁⟩
  obtain ⟨hσ₁, hmd⟩ := findMainApiPage_nodup env σ id fwo hσ
  rw [hm] at hσ₁ hmd
  cases m with
  | none =>
      simp only [scrapeFromWeb, hm]
      exact ⟨hσ₁, by simp⟩
  | some mainDoc =>
      have hmn : mainDoc.relatedApis.Nodup := hmd mainDoc rfl
      have hσ₂ : NodupInv (cacheResult σ₁ mainDoc) := cacheResult_nodup σ₁ mainDoc hσ₁ hmn
      rcases hra : scrapeRelatedApis env (cacheResult σ₁ mainDoc) mainDoc.url with ⟨rel, σ₃⟩
      have hσ₃ : NodupInv σ₃ := by
        have h' := scrapeRelatedApis_state env (cacheResult σ₁ mainDoc) mainDoc.url
        rw [hra] at h'
        rw [show σ₃ = _ from h']
        exact hσ₂
      rcases he : expandRelated env fwo (rel.take 10) σ₃ with ⟨docs, σ₄⟩
      obtain ⟨hσ₄, hall⟩ := expandRelated_nodup env fwo (rel.take 10) σ₃ hσ₃
      rw [he] at hσ₄ hall
      simp only [scrapeFromWeb, hm, hra, he]
      refine ⟨hσ₄, fun x hx => ?_⟩
      rcases List.mem_cons.mp hx with rfl | hx
      · exact hmn
      · exact hall x hx

/-! Claim C4. -/

/-- C4: starting from any state whose caches hold only deduplicated
`relatedApis` lists (as every reachable state does), one `scrapeApiInDepth`
call issues at most 11 network fetches — 1 primary plus 10 related is the
claimed bound; the code in fact stays below it because the related list is
capped at 5 — and every entry it returns, as well as every entry left in
either cache, carries a duplicate-free `relatedApis` list. -/
theorem resolve_fetch_bound_and_nodup (env : FetchEnv) (σ : ScrapeState)
    (id : String) (fwo : Option String) (hσ : NodupInv σ) :
    (scrapeApiInDepth env σ id fwo).2.fetches ≤ σ.fetches + 11 ∧
    (∀ d ∈ (scrapeApiInDepth env σ id fwo).1, d.relatedApis.Nodup) ∧
    NodupInv (scrapeApiInDepth env σ id fwo).2 := by
  cases fwo with
  | none =>
      rw [scrapeApiInDepth_none]
      obtain ⟨hinv, hall⟩ := scrapeFromWeb_nodup env σ id none hσ
      exact ⟨le_trans (scrapeFromWeb_fetches_le env σ id none) (by omega), hall, hinv⟩
  | some fw =>
      rcases hq : getCachedResult σ id fw with ⟨c, σ₁⟩
      obtain ⟨hσ₁, hcd⟩ := getCachedResult_nodup σ id fw hσ
      rw [hq] at hσ₁ hcd
      have h1 : σ₁.fetches = σ.fetches := by
        have h' := getCachedResult_fetches σ id fw
        rw [hq] at h'
        exact h'
      cases c with
      | none =>
          simp only [scrapeApiInDepth, hq]
          obtain ⟨hinv, hall⟩ := scrapeFromWeb_nodup env σ₁ id (some fw) hσ₁
          refine ⟨le_trans (scrapeFromWeb_fetches_le env σ₁ id (some fw)) (by omega),
            hall, hinv⟩
      | some cached =>
          rcases hsr : searchRelatedGo fw σ₁ (cached.relatedApis.take 5) with ⟨hits, σ₂⟩
          obtain ⟨hf, _, _, _, _⟩ := searchRelatedGo_spec fw (cached.relatedApis.take 5) σ₁
          obtain ⟨hσ₂, hhits⟩ := searchRelatedGo_nodup fw (cached.relatedApis.take 5) σ₁ hσ₁
          rw [hsr] at hf hσ₂ hhits
          have hmain : scrapeApiInDepth env σ id (some fw) = (cached :: hits, σ₂) := by
            simp only [scrapeApiInDepth, hq, searchRelatedInCache, hsr, List.length_cons]
            simp
          rw [hmain]
          refine ⟨?_, fun x hx => ?_, hσ₂⟩
          · show σ₂.fetches ≤ σ.fetches + 11
            have hf' : σ₂.fetches = σ₁.fetches := hf
            omega
          · rcases List.mem_cons.mp hx with rfl | hx
            · exact hcd x rfl
            · exact hhits x hx

/-! Claim C3. -/

/-- C3: when the primary `(framework, identifier)` lookup hits the durable
cache, the whole `scrapeApiInDepth` call performs zero network fetches: the
result starts with the cached primary entry (its access statistics
refreshed), the remaining entries all come from cache lookups of up to 5 of
the hit entry's stored related identifiers — cache misses among them are
skipped, never fetched — and the call returns immediately. -/
theorem cache_hit_serves_without_network (env : FetchEnv) (σ : ScrapeState)
    (id fw : String) (e : CachedApiData)
    (h : storeFind σ.store (cacheKey id fw) = some e) :
    (scrapeApiInDepth env σ id (some fw)).2.fetches = σ.fetches ∧
    (scrapeApiInDepth env σ id (some fw)).1.head? =
      some (convertCachedToDeepDoc
        { e with lastAccessed := σ.now, accessCount := e.accessCount + 1 }) ∧
    (∀ d ∈ (scrapeApiInDepth env σ id (some fw)).1.tail, d.fromCache = true) ∧
    (scrapeApiInDepth env σ id (some fw)).1.tail.length ≤ 5 :=
  scrapeApiInDepth_hit_spec env σ id fw e h

/-! Concrete fixtures used by witnesses and counterexamples. -/

/-- A fresh metadata aggregate. -/
def meta0 : CacheMetadata :=
  { totalApis := 0, lastCleanup := 0, cacheVersion := "1.1.0", frameworks := [] }

/-- A fresh scraper state over empty caches. -/
def st0 : ScrapeState :=
  { mem := [], store := [], meta := meta0, fetches := 0, cacheReads := 0, now := 0 }

/-- A sample store input. -/
def sampleInput : ApiDataInput :=
  { apiName := "Foo", framework := "UIKit", documentation := "doc"
    properties := [], methods := [], examples := [], relatedApis := []
    deprecationInfo := none }

/-- A concrete cache entry with chosen access statistics. -/
def mkEntry (name : String) (cachedAt lastAccessed accessCount : Nat) : CachedApiData :=
  { apiName := name, framework := "UIKit", documentation := "doc"
    properties := [], methods := [], examples := [], relatedApis := []
    deprecationInfo := none
    cachedAt := cachedAt, lastAccessed := lastAccessed, accessCount := accessCount }

/-- A concrete page with a given title and related links, scraping to
framework `UIKit`. -/
def mkPage (title : String) (links : List String) : Page :=
  { title := title, framework := "UIKit", typ := "class", description := "d"
    availability := "", isDeprecated := false, deprecationText := ""
    codeExamples := [], properties := [], methods := [], relatedLinks := links }

/-! Claim C1. -/

/-- C1: on a store of `M` entries with `M > N`, `cleanupCache` with capacity
`N` returns `M - N`, and the removed entries form a set of `M - N` entries
each of which is below every surviving entry in the lexicographic
`(accessCount, lastAccessed)` order — so the removed set consists of the
`M - N` least-used entries, ties broken by least-recent access.  The
5,001-entries/5,000-capacity scenario is the instance `M = N + 1`. -/
theorem cleanupCache_removes_least_used (N : Nat) (files : List CachedApiData)
    (meta : CacheMetadata) (now : Nat) (h : files.length > N) :
    (cleanupCache N files meta now).1 = files.length - N ∧
    ∃ removed : List CachedApiData,
      removed.length = files.length - N ∧
      files.Perm (removed ++ (cleanupCache N files meta now).2.1) ∧
      ∀ x ∈ removed, ∀ y ∈ (cleanupCache N files meta now).2.1, evictionLE x y = true := by
  have hlen : (files.mergeSort evictionLE).length = files.length :=
    (List.mergeSort_perm files evictionLE).length_eq
  have htake : ((files.mergeSort evictionLE).take (files.length - N)).length
      = files.length - N := by
    rw [List.length_take, hlen]
    omega
  have hsplit := List.take_append_drop (files.length - N) (files.mergeSort evictionLE)
  have hsorted := @List.sorted_mergeSort _ evictionLE evictionLE_trans evictionLE_total files
  rw [← hsplit] at hsorted
  have hcross := (List.pairwise_append.mp hsorted).2.2
  have hperm : files.Perm ((files.mergeSort evictionLE).take (files.length - N) ++
      (files.mergeSort evictionLE).drop (files.length - N)) := by
    rw [hsplit]
    exact (List.mergeSort_perm files evictionLE).symm
  unfold cleanupCache
  rw [if_pos h]
  exact ⟨htake, (files.mergeSort evictionLE).take (files.length - N), htake, hperm, hcross⟩

/-- Witness for C1 at a concrete over-capacity store: three entries,
capacity one. -/
theorem cleanupCache_removes_least_used_witness :
    [mkEntry "A" 0 5 3, mkEntry "B" 0 2 1, mkEntry "C" 0 1 1].length > 1 ∧
    ((cleanupCache 1 [mkEntry "A" 0 5 3, mkEntry "B" 0 2 1, mkEntry "C" 0 1 1] meta0 9).1 =
      [mkEntry "A" 0 5 3, mkEntry "B" 0 2 1, mkEntry "C" 0 1 1].length - 1 ∧
    ∃ removed : List CachedApiData,
      removed.length = [mkEntry "A" 0 5 3, mkEntry "B" 0 2 1, mkEntry "C" 0 1 1].length - 1 ∧
      List.Perm [mkEntry "A" 0 5 3, mkEntry "B" 0 2 1, mkEntry "C" 0 1 1]
        (removed ++ (cleanupCache 1 [mkEntry "A" 0 5 3, mkEntry "B" 0 2 1, mkEntry "C" 0 1 1] meta0 9).2.1) ∧
      ∀ x ∈ removed,
        ∀ y ∈ (cleanupCache 1 [mkEntry "A" 0 5 3, mkEntry "B" 0 2 1, mkEntry "C" 0 1 1] meta0 9).2.1,
          evictionLE x y = true) :=
  ⟨by decide,
   cleanupCache_removes_least_used 1
     [mkEntry "A" 0 5 3, mkEntry "B" 0 2 1, mkEntry "C" 0 1 1] meta0 9 (by decide)⟩

/-! Claim C6. -/

/-- C6: after `cacheApi` (put) followed by `getCachedApi` (get) on the same
key, the entry's `accessCount` has increased by exactly 1 (from the 1 set
by put to 2), its `lastAccessed` equals the time of the get call, and the
mutated entry is the one persisted in the store. -/
theorem put_then_get_updates_access (store : Store) (meta : CacheMetadata)
    (d : ApiDataInput) (t₁ t₂ : Nat) :
    ∃ e st',
      getCachedApi (cacheApi store meta d t₁).1 d.apiName d.framework t₂ = (some e, st') ∧
      e.accessCount = 1 + 1 ∧ e.lastAccessed = t₂ ∧
      storeFind st' (cacheKey d.apiName d.framework) = some e := by
  unfold cacheApi getCachedApi
  simp only [storeFind_write_self]
  exact ⟨_, _, rfl, rfl, rfl, storeFind_write_self _ _ _⟩

/-! Claim C7. -/

/-- C7: a `getCachedApi` hit returns the stored entry for every clock value
and every entry age (`cachedAt` is unconstrained: no expiry policy is
consulted), mutating only `lastAccessed` and `accessCount`; the store keeps
the same number of entry files, every other key is untouched, and every
previously present key is still present — so reads never delete. -/
theorem getCachedApi_ignores_age (store : Store) (id fw : String) (now : Nat)
    (e : CachedApiData) (h : storeFind store (cacheKey id fw) = some e) :
    getCachedApi store id fw now =
      (some { e with lastAccessed := now, accessCount := e.accessCount + 1 },
       storeWrite store (cacheKey id fw)
         { e with lastAccessed := now, accessCount := e.accessCount + 1 }) ∧
    (getCachedApi store id fw now).2.length = store.length ∧
    (∀ k, k ≠ cacheKey id fw →
      storeFind (getCachedApi store id fw now).2 k = storeFind store k) ∧
    (∀ k, (storeFind store k).isSome → (storeFind (getCachedApi store id fw now).2 k).isSome) := by
  have heq : getCachedApi store id fw now =
      (some { e with lastAccessed := now, accessCount := e.accessCount + 1 },
       storeWrite store (cacheKey id fw)
         { e with lastAccessed := now, accessCount := e.accessCount + 1 }) := by
    unfold getCachedApi
    rw [h]
  refine ⟨heq, ?_, ?_, ?_⟩
  · rw [heq]
    exact storeWrite_length_of_found _ _ _ _ h
  · intro k hk
    rw [heq]
    exact storeFind_write_ne _ _ _ _ hk
  · intro k hks
    rw [heq]
    by_cases hk : k = cacheKey id fw
    · subst hk
      rw [storeFind_write_self]
      rfl
    · rw [storeFind_write_ne _ _ _ _ hk]
      exact hks

/-- Store holding one month-old entry, for the C7 witness. -/
def ageStore : Store := [(cacheKey "Foo" "UIKit", mkEntry "Foo" 0 0 4)]

/-- The month-old entry of `ageStore`. -/
def ageEntry : CachedApiData := mkEntry "Foo" 0 0 4

/-- Witness for C7: a stored entry written at time 0 is still served (not
expired, not deleted) when read 30 days (2,592,000,000 ms) later. -/
theorem getCachedApi_ignores_age_witness :
    storeFind ageStore (cacheKey "Foo" "UIKit") = some ageEntry ∧
    (getCachedApi ageStore "Foo" "UIKit" 2592000000 =
      (some { ageEntry with lastAccessed := 2592000000, accessCount := ageEntry.accessCount + 1 },
       storeWrite ageStore (cacheKey "Foo" "UIKit")
         { ageEntry with lastAccessed := 2592000000, accessCount := ageEntry.accessCount + 1 }) ∧
    (getCachedApi ageStore "Foo" "UIKit" 2592000000).2.length = ageStore.length ∧
    (∀ k, k ≠ cacheKey "Foo" "UIKit" →
      storeFind (getCachedApi ageStore "Foo" "UIKit" 2592000000).2 k = storeFind ageStore k) ∧
    (∀ k, (storeFind ageStore k).isSome →
      (storeFind (getCachedApi ageStore "Foo" "UIKit" 2592000000).2 k).isSome)) :=
  ⟨by rfl,
   getCachedApi_ignores_age ageStore "Foo" "UIKit" 2592000000 ageEntry (by rfl)⟩

/-! Claim C8. -/

/-- C8 counterexample: `cacheApi` increments `totalApis` even when
overwriting an existing key — after putting the same input twice the store
holds one entry file but the metadata reports two, so the aggregate does
not equal the number of entry files after this mutating operation. -/
theorem cacheApi_overwrite_increments_counterexample :
    (cacheApi (cacheApi [] meta0 sampleInput 0).1 (cacheApi [] meta0 sampleInput 0).2
        sampleInput 1).2.totalApis = 2 ∧
    (cacheApi (cacheApi [] meta0 sampleInput 0).1 (cacheApi [] meta0 sampleInput 0).2
        sampleInput 1).1.length = 1 ∧
    ¬ ((cacheApi (cacheApi [] meta0 sampleInput 0).1 (cacheApi [] meta0 sampleInput 0).2
        sampleInput 1).2.totalApis =
       ((cacheApi (cacheApi [] meta0 sampleInput 0).1 (cacheApi [] meta0 sampleInput 0).2
        sampleInput 1).1.length : Int)) := by
  decide

/-- C8 amended: `cacheApi` increments the stored `totalApis` on every
write, including overwrites of an existing key, so the stored aggregate can
drift above the number of entry files; `getCacheStats` re-derives its
`totalApis` by scanning the entry set — it always reports the actual entry
count, not the stored aggregate. -/
theorem cacheApi_increments_and_stats_rederive (store : Store) (meta : CacheMetadata)
    (d : ApiDataInput) (now : Nat) (store₂ : Store) (meta₂ : CacheMetadata)
    (now₂ maxSize : Nat) :
    (cacheApi store meta d now).2.totalApis = meta.totalApis + 1 ∧
    (getCacheStats store₂ meta₂ now₂ maxSize).totalApis = store₂.length := by
  refine ⟨rfl, ?_⟩
  simp [getCacheStats, statsFold_apiCount]

/-! Witnesses for the orchestrator claims. -/

/-- An environment in which every fetch fails. -/
def envNone : FetchEnv := { searchHref := fun _ _ => none, page := fun _ => none }

/-- A state whose durable store already holds `ageEntry`. -/
def stHit : ScrapeState := { st0 with store := ageStore }

/-- Witness for C3 at a concrete cached entry and an environment in which
any attempted fetch would fail. -/
theorem cache_hit_serves_without_network_witness :
    storeFind stHit.store (cacheKey "Foo" "UIKit") = some ageEntry ∧
    ((scrapeApiInDepth envNone stHit "Foo" (some "UIKit")).2.fetches = stHit.fetches ∧
     (scrapeApiInDepth envNone stHit "Foo" (some "UIKit")).1.head? =
       some (convertCachedToDeepDoc
         { ageEntry with lastAccessed := stHit.now, accessCount := ageEntry.accessCount + 1 }) ∧
     (∀ d ∈ (scrapeApiInDepth envNone stHit "Foo" (some "UIKit")).1.tail, d.fromCache = true) ∧
     (scrapeApiInDepth envNone stHit "Foo" (some "UIKit")).1.tail.length ≤ 5) :=
  ⟨by rfl, cache_hit_serves_without_network envNone stHit "Foo" "UIKit" ageEntry (by rfl)⟩

/-- Witness for C4 at the empty state. -/
theorem resolve_fetch_bound_and_nodup_witness :
    NodupInv st0 ∧
    ((scrapeApiInDepth envNone st0 "Foo" none).2.fetches ≤ st0.fetches + 11 ∧
     (∀ d ∈ (scrapeApiInDepth envNone st0 "Foo" none).1, d.relatedApis.Nodup) ∧
     NodupInv (scrapeApiInDepth envNone st0 "Foo" none).2) :=
  ⟨⟨by simp [st0], by simp [st0]⟩,
   resolve_fetch_bound_and_nodup envNone st0 "Foo" none ⟨by simp [st0], by simp [st0]⟩⟩

/-- Witness for C10 at the empty state. -/
theorem resolveAll_never_reads_cache_witness :
    FlagInv st0 ∧
    ((resolveAll envNone st0 ["A", "B"]).2.cacheReads = st0.cacheReads ∧
     (∀ d ∈ (resolveAll envNone st0 ["A", "B"]).1, d.fromCache = false) ∧
     fromCacheCount (resolveAll envNone st0 ["A", "B"]).1 = 0) :=
  ⟨by simp [FlagInv, st0],
   resolveAll_never_reads_cache envNone st0 ["A", "B"] (by simp [FlagInv, st0])⟩

/-- An environment in which the seed `B` fails entirely while other seeds
resolve to a concrete page. -/
def envB : FetchEnv :=
  { searchHref := fun q _ => if q = "B" then none else some "/documentation/uikit/foo"
    page := fun u =>
      if u = "https://developer.apple.com/documentation/uikit/foo" then some (mkPage "Foo" [])
      else none }

/-- Witness for C9: in `envB` the middle seed's search fails while `A` and
`C` resolve. -/
theorem resolveAll_tolerates_failed_seed_witness :
    envB.searchHref "B" none = none ∧
    ((scrapeApiInDepth envB (scrapeApiInDepth envB st0 "A" none).2 "B" none).1 = [] ∧
     (resolveAll envB st0 ["A", "B", "C"]).1 =
       (scrapeApiInDepth envB st0 "A" none).1 ++
       (scrapeApiInDepth envB
         { (scrapeApiInDepth envB st0 "A" none).2 with
           fetches := (scrapeApiInDepth envB st0 "A" none).2.fetches + 1 } "C" none).1) :=
  ⟨by rfl, resolveAll_tolerates_failed_seed envB st0 "A" "B" "C" (by rfl)⟩

/-! Claim C2. -/

/-- Page for the primary URL of the C2 scenario: title `foo`, one related
link. -/
def pgFoo : Page := mkPage "foo" ["https://developer.apple.com/documentation/uikit/bar"]

/-- Page for the related URL of the C2 scenario. -/
def pgBar : Page := mkPage "bar" []

/-- Two-page world for the C2 scenario. -/
def env2 : FetchEnv :=
  { searchHref := fun q _ => if q = "foo" then some "/documentation/uikit/foo" else none
    page := fun u =>
      if u = "https://developer.apple.com/documentation/uikit/foo" then some pgFoo
      else if u = "https://developer.apple.com/documentation/uikit/bar" then some pgBar
      else none }

/-- C2 counterexample: after a first `resolve("foo", "UIKit")` that caches
the primary (key `uikit-foo`) and one related entry (key `uikit-bar`), the
second identical call — a cache hit, hence zero fetches — returns only the
primary entry: the related entry was cached under its page title but is
looked up under its URL, so the second call's result is not a
superset-or-equal (by key) of the first call's result. -/
theorem resolve_idempotence_counterexample :
    ¬ ((scrapeApiInDepth env2 (scrapeApiInDepth env2 st0 "foo" (some "UIKit")).2 "foo"
          (some "UIKit")).2.fetches =
         (scrapeApiInDepth env2 st0 "foo" (some "UIKit")).2.fetches ∧
       ∀ d ∈ (scrapeApiInDepth env2 st0 "foo" (some "UIKit")).1,
         ∃ d' ∈ (scrapeApiInDepth env2 (scrapeApiInDepth env2 st0 "foo" (some "UIKit")).2 "foo"
             (some "UIKit")).1,
           cacheKey d'.title d'.framework = cacheKey d.title d.framework) := by
  decide

/-- C2 amended: when the first call leaves the durable store with an entry
under the lookup key — which requires the scraped page title and framework
to sanitize to the key of the queried `(identifier, framework)` pair — the
second identical call performs zero network fetches and returns a nonempty
result (the cached primary entry); the superset-or-equal guarantee on the
result set does not hold, because related entries are persisted under their
page titles but re-looked-up under their URLs. -/
theorem resolve_second_call_cached (env : FetchEnv) (σ₀ : ScrapeState) (id fw : String)
    (h : storeFind (scrapeApiInDepth env σ₀ id (some fw)).2.store (cacheKey id fw) ≠ none) :
    (scrapeApiInDepth env (scrapeApiInDepth env σ₀ id (some fw)).2 id (some fw)).2.fetches =
      (scrapeApiInDepth env σ₀ id (some fw)).2.fetches ∧
    (scrapeApiInDepth env (scrapeApiInDepth env σ₀ id (some fw)).2 id (some fw)).1 ≠ [] := by
  rcases hfind : storeFind (scrapeApiInDepth env σ₀ id (some fw)).2.store (cacheKey id fw)
    with _ | e
  · exact absurd hfind h
  · obtain ⟨hf, hhead, _, _⟩ := scrapeApiInDepth_hit_spec env
      (scrapeApiInDepth env σ₀ id (some fw)).2 id fw e hfind
    refine ⟨hf, fun hnil => ?_⟩
    rw [hnil] at hhead
    simp at hhead

/-- Witness for the amended C2 in the concrete two-page world: the first
call caches the primary under the lookup key, and the second call fetches
nothing and returns a nonempty result. -/
theorem resolve_second_call_cached_witness :
    storeFind (scrapeApiInDepth env2 st0 "foo" (some "UIKit")).2.store
        (cacheKey "foo" "UIKit") ≠ none ∧
    ((scrapeApiInDepth env2 (scrapeApiInDepth env2 st0 "foo" (some "UIKit")).2 "foo"
          (some "UIKit")).2.fetches =
        (scrapeApiInDepth env2 st0 "foo" (some "UIKit")).2.fetches ∧
     (scrapeApiInDepth env2 (scrapeApiInDepth env2 st0 "foo" (some "UIKit")).2 "foo"
          (some "UIKit")).1 ≠ []) :=
  ⟨by decide, resolve_second_call_cached env2 st0 "foo" "UIKit" (by decide)⟩

/-! Step equations for tracing a concrete resolve. -/

theorem scrapeApiInDepth_miss (env : FetchEnv) (σ : ScrapeState) (id fw : String)
    (h : storeFind σ.store (cacheKey id fw) = none) :
    scrapeApiInDepth env σ id (some fw) =
      scrapeFromWeb env { σ with cacheReads := σ.cacheReads + 1 } id (some fw) := by
  simp only [scrapeApiInDepth, getCachedResult, getCachedApi, h]

theorem findMainApiPage_hit (env : FetchEnv) (σ : ScrapeState) (id : String)
    (fwo : Option String) (href : String) (h : env.searchHref id fwo = some href) :
    findMainApiPage env σ id fwo =
      scrapeApiPage env { σ with fetches := σ.fetches + 1 }
        (if jsStartsWith href "http" then href else baseUrl ++ href) := by
  simp only [findMainApiPage, h]

theorem scrapeApiPage_hit (env : FetchEnv) (σ : ScrapeState) (url : String) (pg : Page)
    (hm : memFind σ.mem url = none) (hp : env.page url = some pg) :
    scrapeApiPage env σ url =
      (some (buildPageResult url pg),
       { σ with fetches := σ.fetches + 1,
                mem := memWrite σ.mem url (buildPageResult url pg) }) := by
  simp only [scrapeApiPage, hm, hp]

theorem scrapeRelatedApis_hit (env : FetchEnv) (σ : ScrapeState) (u : String) (pg : Page)
    (hp : env.page u = some pg) :
    scrapeRelatedApis env σ u =
      ((jsSetDedup pg.relatedLinks).take 5, { σ with fetches := σ.fetches + 1 }) := by
  simp only [scrapeRelatedApis, hp]

/-- The entry `cacheResult` persists for a scraped record. -/
def cacheEntryOf (r : DeepDocResult) (now : Nat) : CachedApiData :=
  { apiName := r.title
    framework := r.framework
    documentation := r.description
    properties := r.properties.map (fun p => p.name ++ ": " ++ p.typ)
    methods := r.methods.map (fun m =>
      m.name ++ "(" ++ String.intercalate ", " (m.parameters.map (·.name)) ++ "): " ++ m.returnType)
    examples := r.codeExamples
    relatedApis := r.relatedApis
    deprecationInfo :=
      if r.isDeprecated then
        some { isDeprecated := true
               reason := some (if (r.deprecationInfo.getD "") = "" then
                 "This API is deprecated" else r.deprecationInfo.getD "")
               alternative := some "Check Apple documentation for alternatives"
               deprecatedSince := none }
      else none
    cachedAt := now, lastAccessed := now, accessCount := 1 }

theorem cacheResult_store (σ : ScrapeState) (r : DeepDocResult) :
    (cacheResult σ r).store =
      storeWrite σ.store (cacheKey r.title r.framework) (cacheEntryOf r σ.now) := rfl

theorem cacheResult_eq (σ : ScrapeState) (r : DeepDocResult) :
    cacheResult σ r =
      { σ with store := storeWrite σ.store (cacheKey r.title r.framework) (cacheEntryOf r σ.now)
               meta := (cacheApi σ.store σ.meta
                 { apiName := r.title, framework := r.framework, documentation := r.description
                   properties := r.properties.map (fun p => p.name ++ ": " ++ p.typ)
                   methods := r.methods.map (fun m =>
                     m.name ++ "(" ++ String.intercalate ", " (m.parameters.map (·.name)) ++
                       "): " ++ m.returnType)
                   examples := r.codeExamples
                   relatedApis := r.relatedApis
                   deprecationInfo :=
                     if r.isDeprecated then
                       some { isDeprecated := true
                              reason := some (if (r.deprecationInfo.getD "") = "" then
                                "This API is deprecated" else r.deprecationInfo.getD "")
                              alternative := some "Check Apple documentation for alternatives"
                              deprecatedSince := none }
                     else none } σ.now).2 } := rfl

theorem cacheResult_exists_meta (σ : ScrapeState) (r : DeepDocResult) :
    ∃ M, cacheResult σ r =
      { σ with store := storeWrite σ.store (cacheKey r.title r.framework) (cacheEntryOf r σ.now)
               meta := M } :=
  ⟨_, cacheResult_eq σ r⟩

theorem expandRelated_cons_fetch (env : FetchEnv) (fw : String) (σ : ScrapeState)
    (u : String) (rest : List String) (pg : Page)
    (hs : storeFind σ.store (cacheKey u fw) = none)
    (hm : memFind σ.mem u = none)
    (hp : env.page u = some pg) :
    expandRelated env (some fw) (u :: rest) σ =
      (buildPageResult u pg ::
        (expandRelated env (some fw) rest
          (cacheResult
            { σ with cacheReads := σ.cacheReads + 1, fetches := σ.fetches + 1,
                     mem := memWrite σ.mem u (buildPageResult u pg) }
            (buildPageResult u pg))).1,
       (expandRelated env (some fw) rest
          (cacheResult
            { σ with cacheReads := σ.cacheReads + 1, fetches := σ.fetches + 1,
                     mem := memWrite σ.mem u (buildPageResult u pg) }
            (buildPageResult u pg))).2) := by
  simp only [expandRelated, getCachedResult, getCachedApi, hs, scrapeApiPage, hm, hp]

theorem storeFind_nil (k : String) : storeFind [] k = none := rfl

theorem storeFind_cons_ne (k' : String) (v : CachedApiData) (st : Store) (k : String)
    (h : k' ≠ k) : storeFind ((k', v) :: st) k = storeFind st k := by
  simp [storeFind, h]

theorem storeWrite_cons_ne (k' : String) (v' : CachedApiData) (st : Store) (k : String)
    (v : CachedApiData) (h : k' ≠ k) :
    storeWrite ((k', v') :: st) k v = (k', v') :: storeWrite st k v := by
  simp [storeWrite, h]

theorem storeWrite_nil (k : String) (v : CachedApiData) : storeWrite [] k v = [(k, v)] := rfl

theorem memFind_nil (k : String) : memFind [] k = none := rfl

theorem memWrite_nil (k : String) (v : DeepDocResult) : memWrite [] k v = [(k, v)] := rfl

theorem memFind_cons_ne (k' : String) (v : DeepDocResult)
    (m : List (String × DeepDocResult)) (k : String) (h : k' ≠ k) :
    memFind ((k', v) :: m) k = memFind m k := by
  simp [memFind, h]

theorem memWrite_cons_ne (k' : String) (v' : DeepDocResult)
    (m : List (String × DeepDocResult)) (k : String) (v : DeepDocResult) (h : k' ≠ k) :
    memWrite ((k', v') :: m) k v = (k', v') :: memWrite m k v := by
  simp [memWrite, h]

theorem buildPageResult_url (url : String) (pg : Page) :
    (buildPageResult url pg).url = url := rfl

theorem cacheEntryOf_framework (r : DeepDocResult) (now : Nat) :
    (cacheEntryOf r now).framework = r.framework := rfl

theorem expandRelated_nil_eq (env : FetchEnv) (fwo : Option String) (σ : ScrapeState) :
    expandRelated env fwo [] σ = ([], σ) := rfl

/-- C5 amended: starting from empty caches, `resolve("Foo", "UIKit")` on a
world whose primary page exposes exactly 3 related links, all of which
resolve, performs exactly 6 network fetches — 1 search fetch and 1 page
fetch for the primary, 1 re-fetch of the primary page for link discovery,
and 3 related-page fetches — not the 4 the claim states; afterwards the
durable cache holds exactly 4 entries, all with framework `UIKit`
(provided, as the scenario presumes, that the related links differ from the
primary URL and the four pages are cached under four distinct keys none of
which collides with a related link's lookup key). -/
theorem scenarioA_six_fetches (env : FetchEnv) (m0 : CacheMetadata) (f0 r0 n0 : Nat)
    (href url u1 u2 u3 : String) (pg pg1 pg2 pg3 : Page)
    (h1 : env.searchHref "Foo" (some "UIKit") = some href)
    (hu : (if jsStartsWith href "http" then href else baseUrl ++ href) = url)
    (h2 : env.page url = some pg)
    (h3 : jsSetDedup pg.relatedLinks = [u1, u2, u3])
    (hne1 : u1 ≠ url) (hne2 : u2 ≠ url) (hne3 : u3 ≠ url)
    (hp1 : env.page u1 = some pg1) (hp2 : env.page u2 = some pg2)
    (hp3 : env.page u3 = some pg3)
    (hfw : (buildPageResult url pg).framework = "UIKit")
    (hfw1 : (buildPageResult u1 pg1).framework = "UIKit")
    (hfw2 : (buildPageResult u2 pg2).framework = "UIKit")
    (hfw3 : (buildPageResult u3 pg3).framework = "UIKit")
    (hkD1 : cacheKey (buildPageResult url pg).title "UIKit" ≠
            cacheKey (buildPageResult u1 pg1).title "UIKit")
    (hkD2 : cacheKey (buildPageResult url pg).title "UIKit" ≠
            cacheKey (buildPageResult u2 pg2).title "UIKit")
    (hkD3 : cacheKey (buildPageResult url pg).title "UIKit" ≠
            cacheKey (buildPageResult u3 pg3).title "UIKit")
    (hk12 : cacheKey (buildPageResult u1 pg1).title "UIKit" ≠
            cacheKey (buildPageResult u2 pg2).title "UIKit")
    (hk13 : cacheKey (buildPageResult u1 pg1).title "UIKit" ≠
            cacheKey (buildPageResult u3 pg3).title "UIKit")
    (hk23 : cacheKey (buildPageResult u2 pg2).title "UIKit" ≠
            cacheKey (buildPageResult u3 pg3).title "UIKit")
    (hL1D : cacheKey u1 "UIKit" ≠ cacheKey (buildPageResult url pg).title "UIKit")
    (hL2D : cacheKey u2 "UIKit" ≠ cacheKey (buildPageResult url pg).title "UIKit")
    (hL21 : cacheKey u2 "UIKit" ≠ cacheKey (buildPageResult u1 pg1).title "UIKit")
    (hL3D : cacheKey u3 "UIKit" ≠ cacheKey (buildPageResult url pg).title "UIKit")
    (hL31 : cacheKey u3 "UIKit" ≠ cacheKey (buildPageResult u1 pg1).title "UIKit")
    (hL32 : cacheKey u3 "UIKit" ≠ cacheKey (buildPageResult u2 pg2).title "UIKit") :
    (scrapeApiInDepth env
        { mem := [], store := [], meta := m0, fetches := f0, cacheReads := r0, now := n0 }
        "Foo" (some "UIKit")).2.fetches = f0 + 6 ∧
    (scrapeApiInDepth env
        { mem := [], store := [], meta := m0, fetches := f0, cacheReads := r0, now := n0 }
        "Foo" (some "UIKit")).2.store.length = 4 ∧
    ((scrapeApiInDepth env
        { mem := [], store := [], meta := m0, fetches := f0, cacheReads := r0, now := n0 }
        "Foo" (some "UIKit")).2.store.filter
      (fun p => p.2.framework = "UIKit")).length = 4 := by
  obtain ⟨hd12, hd13, hd23⟩ : u1 ≠ u2 ∧ u1 ≠ u3 ∧ u2 ≠ u3 := by
    have hnd := jsSetDedup_nodup pg.relatedLinks
    rw [h3] at hnd
    simp only [List.nodup_cons, List.mem_cons, List.mem_singleton, List.not_mem_nil,
      or_false, not_or] at hnd
    exact ⟨hnd.1.1, hnd.1.2, hnd.2.1⟩
  rw [scrapeApiInDepth_miss env
    { mem := [], store := [], meta := m0, fetches := f0, cacheReads := r0, now := n0 }
    "Foo" "UIKit" rfl]
  have hfind : findMainApiPage env
      { mem := [], store := [], meta := m0, fetches := f0, cacheReads := r0 + 1, now := n0 }
      "Foo" (some "UIKit") =
      (some (buildPageResult url pg),
       { mem := [(url, buildPageResult url pg)], store := [], meta := m0,
         fetches := f0 + 1 + 1, cacheReads := r0 + 1, now := n0 }) := by
    rw [findMainApiPage_hit env _ "Foo" (some "UIKit") href h1, hu]
    dsimp only
    rw [scrapeApiPage_hit env
      { mem := [], store := [], meta := m0, fetches := f0 + 1, cacheReads := r0 + 1, now := n0 }
      url pg rfl h2]
    dsimp only
    rw [memWrite_nil]
  simp only [scrapeFromWeb, hfind]
  obtain ⟨M1, hcr⟩ := cacheResult_exists_meta
    { mem := [(url, buildPageResult url pg)], store := [], meta := m0,
      fetches := f0 + 1 + 1, cacheReads := r0 + 1, now := n0 }
    (buildPageResult url pg)
  rw [hfw] at hcr
  dsimp only at hcr
  rw [storeWrite_nil] at hcr
  simp only [hcr, buildPageResult_url]
  rw [scrapeRelatedApis_hit env _ url pg h2, h3]
  rw [show List.take 5 [u1, u2, u3] = [u1, u2, u3] from rfl]
  rw [show List.take 10 [u1, u2, u3] = [u1, u2, u3] from rfl]
  dsimp only
  rw [expandRelated_cons_fetch env "UIKit" _ u1 [u2, u3] pg1
      (by rw [storeFind_cons_ne _ _ _ _ (Ne.symm hL1D), storeFind_nil])
      (by rw [memFind_cons_ne _ _ _ _ (Ne.symm hne1), memFind_nil]) hp1]
  dsimp only
  rw [memWrite_cons_ne _ _ _ _ _ (Ne.symm hne1), memWrite_nil]
  obtain ⟨M2, hcr1⟩ := cacheResult_exists_meta
    { mem := [(url, buildPageResult url pg), (u1, buildPageResult u1 pg1)],
      store := [(cacheKey (buildPageResult url pg).title "UIKit",
                 cacheEntryOf (buildPageResult url pg) n0)],
      meta := M1, fetches := f0 + 1 + 1 + 1 + 1, cacheReads := r0 + 1 + 1, now := n0 }
    (buildPageResult u1 pg1)
  rw [hfw1] at hcr1
  dsimp only at hcr1
  rw [storeWrite_cons_ne _ _ _ _ _ hkD1, storeWrite_nil] at hcr1
  rw [hcr1]
  rw [expandRelated_cons_fetch env "UIKit" _ u2 [u3] pg2
      (by rw [storeFind_cons_ne _ _ _ _ (Ne.symm hL2D),
              storeFind_cons_ne _ _ _ _ (Ne.symm hL21), storeFind_nil])
      (by rw [memFind_cons_ne _ _ _ _ (Ne.symm hne2),
              memFind_cons_ne _ _ _ _ hd12, memFind_nil]) hp2]
  dsimp only
  rw [memWrite_cons_ne _ _ _ _ _ (Ne.symm hne2),
      memWrite_cons_ne _ _ _ _ _ hd12, memWrite_nil]
  obtain ⟨M3, hcr2⟩ := cacheResult_exists_meta
    { mem := [(url, buildPageResult url pg), (u1, buildPageResult u1 pg1),
              (u2, buildPageResult u2 pg2)],
      store := [(cacheKey (buildPageResult url pg).title "UIKit",
                 cacheEntryOf (buildPageResult url pg) n0),
                (cacheKey (buildPageResult u1 pg1).title "UIKit",
                 cacheEntryOf (buildPageResult u1 pg1) n0)],
      meta := M2, fetches := f0 + 1 + 1 + 1 + 1 + 1, cacheReads := r0 + 1 + 1 + 1, now := n0 }
    (buildPageResult u2 pg2)
  rw [hfw2] at hcr2
  dsimp only at hcr2
  rw [storeWrite_cons_ne _ _ _ _ _ hkD2, storeWrite_cons_ne _ _ _ _ _ hk12,
      storeWrite_nil] at hcr2
  rw [hcr2]
  rw [expandRelated_cons_fetch env "UIKit" _ u3 [] pg3
      (by rw [storeFind_cons_ne _ _ _ _ (Ne.symm hL3D),
              storeFind_cons_ne _ _ _ _ (Ne.symm hL31),
              storeFind_cons_ne _ _ _ _ (Ne.symm hL32), storeFind_nil])
      (by rw [memFind_cons_ne _ _ _ _ (Ne.symm hne3),
              memFind_cons_ne _ _ _ _ hd13,
              memFind_cons_ne _ _ _ _ hd23, memFind_nil]) hp3]
  dsimp only
  rw [memWrite_cons_ne _ _ _ _ _ (Ne.symm hne3),
      memWrite_cons_ne _ _ _ _ _ hd13,
      memWrite_cons_ne _ _ _ _ _ hd23, memWrite_nil]
  obtain ⟨M4, hcr3⟩ := cacheResult_exists_meta
    { mem := [(url, buildPageResult url pg), (u1, buildPageResult u1 pg1),
              (u2, buildPageResult u2 pg2), (u3, buildPageResult u3 pg3)],
      store := [(cacheKey (buildPageResult url pg).title "UIKit",
                 cacheEntryOf (buildPageResult url pg) n0),
                (cacheKey (buildPageResult u1 pg1).title "UIKit",
                 cacheEntryOf (buildPageResult u1 pg1) n0),
                (cacheKey (buildPageResult u2 pg2).title "UIKit",
                 cacheEntryOf (buildPageResult u2 pg2) n0)],
      meta := M3, fetches := f0 + 1 + 1 + 1 + 1 + 1 + 1,
      cacheReads := r0 + 1 + 1 + 1 + 1, now := n0 }
    (buildPageResult u3 pg3)
  rw [hfw3] at hcr3
  dsimp only at hcr3
  rw [storeWrite_cons_ne _ _ _ _ _ hkD3, storeWrite_cons_ne _ _ _ _ _ hk13,
      storeWrite_cons_ne _ _ _ _ _ hk23, storeWrite_nil] at hcr3
  rw [hcr3, expandRelated_nil_eq]
  dsimp only
  refine ⟨by omega, rfl, ?_⟩
  simp [cacheEntryOf_framework, hfw, hfw1, hfw2, hfw3]


/-! Concrete world and counterexample for claim C5. -/

/-- First related URL of the scenario-A world. -/
def uA : String := "https://developer.apple.com/documentation/uikit/a"

/-- Second related URL of the scenario-A world. -/
def uB : String := "https://developer.apple.com/documentation/uikit/b"

/-- Third related URL of the scenario-A world. -/
def uC : String := "https://developer.apple.com/documentation/uikit/c"

/-- The primary URL of the scenario-A world. -/
def urlFoo : String := "https://developer.apple.com/documentation/uikit/foo"

/-- Scenario-A world: the primary page exposes exactly 3 related links and
every page resolves. -/
def env5 : FetchEnv :=
  { searchHref := fun q _ => if q = "Foo" then some "/documentation/uikit/foo" else none
    page := fun u =>
      if u = urlFoo then some (mkPage "Foo" [uA, uB, uC])
      else if u = uA then some (mkPage "A" [])
      else if u = uB then some (mkPage "B" [])
      else if u = uC then some (mkPage "C" [])
      else none }

/-- C5 counterexample: in a world matching Scenario A exactly (empty cache,
primary page with 3 related links, every page resolving to a UIKit page),
the call performs 6 network fetches, not the 4 the claim states — even
though the cache does end with 4 UIKit entries. -/
theorem scenarioA_counterexample :
    (scrapeApiInDepth env5 st0 "Foo" (some "UIKit")).2.fetches = 6 ∧
    ((scrapeApiInDepth env5 st0 "Foo" (some "UIKit")).2.store.filter
      (fun p => p.2.framework = "UIKit")).length = 4 ∧
    ¬ ((scrapeApiInDepth env5 st0 "Foo" (some "UIKit")).2.fetches = 4) := by
  decide

/-- Witness for the amended C5 in the concrete scenario-A world. -/
theorem scenarioA_six_fetches_witness :
    (scrapeApiInDepth env5
        { mem := [], store := [], meta := meta0, fetches := 0, cacheReads := 0, now := 0 }
        "Foo" (some "UIKit")).2.fetches = 0 + 6 ∧
    (scrapeApiInDepth env5
        { mem := [], store := [], meta := meta0, fetches := 0, cacheReads := 0, now := 0 }
        "Foo" (some "UIKit")).2.store.length = 4 ∧
    ((scrapeApiInDepth env5
        { mem := [], store := [], meta := meta0, fetches := 0, cacheReads := 0, now := 0 }
        "Foo" (some "UIKit")).2.store.filter
      (fun p => p.2.framework = "UIKit")).length = 4 :=
  scenarioA_six_fetches env5 meta0 0 0 0 "/documentation/uikit/foo" urlFoo uA uB uC
    (mkPage "Foo" [uA, uB, uC]) (mkPage "A" []) (mkPage "B" []) (mkPage "C" [])
    (by decide) (by decide) (by decide) (by decide)
    (by decide) (by decide) (by decide)
    (by decide) (by decide) (by decide)
    (by decide) (by decide) (by decide) (by decide)
    (by decide) (by decide) (by decide)
    (by decide) (by decide) (by decide)
    (by decide) (by decide) (by decide)
    (by decide) (by decide) (by decide)

end AppleDocs
